import Mathlib

/-!
Verification of the recall-skill session-memory tooling.

This file gives a shallow embedding of the index-maintenance core of the
repository (src/bin/index-session.py, src/bin/recall-sessions.py,
src/bin/extract-knowledge.py, src/lib/knowledge.py, src/lib/pending.py) and
proves properties of the embedded operations.

Modelling conventions:
- JSON documents are modelled by the inductive type `Json`; Python dicts are
  association lists in insertion order (Python ≥3.7 dicts preserve insertion
  order and have unique keys; where an operation is only meaningful for unique
  keys a `Nodup` hypothesis appears on the theorem).
- Python strings are Lean `String`s; slicing `s[:n]` is `String.take n`,
  `l[-n:]` is `takeLast n`, string comparison is code-point lexicographic
  (`strLt`), `needle in hay` is `strIn`.
- `json.load`/file-system effects are modelled by a `FileState` for the file
  that backs the store: the file is absent, present-but-unparseable, or parses
  to a document.  Parsing itself (the `json` standard library) is the
  boundary of the model.
- Machine floats, clocks and uuids do not appear in the modelled logic except
  as opaque string inputs (dates, ids), which are passed as parameters.
-/

namespace Recall

/-! ### String primitives (Python semantics) -/

/-- Code-point lexicographic strict comparison of char lists: Python string
`<`. -/
def clLt : List Char → List Char → Bool
  | [], [] => false
  | [], _ :: _ => true
  | _ :: _, [] => false
  | a :: as, b :: bs =>
    if a.toNat < b.toNat then true
    else if b.toNat < a.toNat then false
    else clLt as bs

/-- Python `a < b` on strings. -/
def strLt (a b : String) : Bool := clLt a.data b.data

/-- Python `max(a, b)` on two strings (returns the first argument on ties,
like CPython's `max`). -/
def pyMax (a b : String) : String := if strLt a b then b else a

/-- Does `hay` start with the chars of the first argument. -/
def clStarts : List Char → List Char → Bool
  | [], _ => true
  | _ :: _, [] => false
  | a :: as, b :: bs => a == b && clStarts as bs

/-- Substring occurrence on char lists. -/
def clInfix : List Char → List Char → Bool
  | n, [] => n.isEmpty
  | n, h :: t => clStarts n (h :: t) || clInfix n t

/-- Python `needle in hay` on strings. -/
def strIn (needle hay : String) : Bool := clInfix needle.data hay.data

/-- ASCII lower-casing of one char.  The Python sources only ever lower-case
ASCII command/error text, so the full-Unicode behaviour of `str.lower` is not
needed by any claim. -/
def lowerChar (c : Char) : Char :=
  if 65 ≤ c.toNat ∧ c.toNat ≤ 90 then Char.ofNat (c.toNat + 32) else c

/-- Python `s.lower()` (ASCII fragment, see `lowerChar`). -/
def lowerStr (s : String) : String := String.mk (s.data.map lowerChar)

/-- Python whitespace test for `str.strip()` (ASCII fragment). -/
def isPySpace (c : Char) : Bool :=
  c == ' ' || c == '\t' || c == '\n' || c == '\r' || c.toNat == 11 || c.toNat == 12

/-- Python `s.strip()` (ASCII whitespace fragment). -/
def stripStr (s : String) : String :=
  String.mk (((s.data.dropWhile isPySpace).reverse.dropWhile isPySpace).reverse)

/-- Python `s.startswith(pre)`. -/
def pyStartsWith (pre s : String) : Bool := clStarts pre.data s.data

/-- Split a char list on one separator char. -/
def splitCharAux (c : Char) (acc : List Char) : List Char → List (List Char)
  | [] => [acc.reverse]
  | x :: xs => if x == c then acc.reverse :: splitCharAux c [] xs else splitCharAux c (x :: acc) xs

/-- Python `s.split(c)` for a one-char separator. -/
def splitStrChar (c : Char) (s : String) : List String := (splitCharAux c [] s.data).map String.mk

/-- Python `l[-n:]`: the last `n` elements. -/
def takeLast {α : Type} (n : Nat) (l : List α) : List α := l.drop (l.length - n)

/-! ### JSON documents

Python values as produced by `json.load` (`None`/`bool`/`int`/`str`/`list`/
`dict`).  Floats never occur in the documents the claims are about and are not
modelled. -/

inductive Json where
  | null
  | bool (b : Bool)
  | num (n : Int)
  | str (s : String)
  | arr (xs : List Json)
  | obj (fields : List (String × Json))

/-- A Python dict with `Json` values (association list in insertion order). -/
abbrev JObj := List (String × Json)

mutual
def Json.deq : (a b : Json) → Decidable (a = b)
  | .null, .null => isTrue rfl
  | .bool a, .bool b =>
    match decEq a b with
    | isTrue h => isTrue (h ▸ rfl)
    | isFalse h => isFalse (fun he => h (Json.bool.inj he))
  | .num a, .num b =>
    match decEq a b with
    | isTrue h => isTrue (h ▸ rfl)
    | isFalse h => isFalse (fun he => h (Json.num.inj he))
  | .str a, .str b =>
    match decEq a b with
    | isTrue h => isTrue (h ▸ rfl)
    | isFalse h => isFalse (fun he => h (Json.str.inj he))
  | .arr a, .arr b =>
    match Json.deqList a b with
    | isTrue h => isTrue (h ▸ rfl)
    | isFalse h => isFalse (fun he => h (Json.arr.inj he))
  | .obj a, .obj b =>
    match Json.deqObj a b with
    | isTrue h => isTrue (h ▸ rfl)
    | isFalse h => isFalse (fun he => h (Json.obj.inj he))
  | .null, .bool _ => isFalse (fun h => Json.noConfusion h)
  | .null, .num _ => isFalse (fun h => Json.noConfusion h)
  | .null, .str _ => isFalse (fun h => Json.noConfusion h)
  | .null, .arr _ => isFalse (fun h => Json.noConfusion h)
  | .null, .obj _ => isFalse (fun h => Json.noConfusion h)
  | .bool _, .null => isFalse (fun h => Json.noConfusion h)
  | .bool _, .num _ => isFalse (fun h => Json.noConfusion h)
  | .bool _, .str _ => isFalse (fun h => Json.noConfusion h)
  | .bool _, .arr _ => isFalse (fun h => Json.noConfusion h)
  | .bool _, .obj _ => isFalse (fun h => Json.noConfusion h)
  | .num _, .null => isFalse (fun h => Json.noConfusion h)
  | .num _, .bool _ => isFalse (fun h => Json.noConfusion h)
  | .num _, .str _ => isFalse (fun h => Json.noConfusion h)
  | .num _, .arr _ => isFalse (fun h => Json.noConfusion h)
  | .num _, .obj _ => isFalse (fun h => Json.noConfusion h)
  | .str _, .null => isFalse (fun h => Json.noConfusion h)
  | .str _, .bool _ => isFalse (fun h => Json.noConfusion h)
  | .str _, .num _ => isFalse (fun h => Json.noConfusion h)
  | .str _, .arr _ => isFalse (fun h => Json.noConfusion h)
  | .str _, .obj _ => isFalse (fun h => Json.noConfusion h)
  | .arr _, .null => isFalse (fun h => Json.noConfusion h)
  | .arr _, .bool _ => isFalse (fun h => Json.noConfusion h)
  | .arr _, .num _ => isFalse (fun h => Json.noConfusion h)
  | .arr _, .str _ => isFalse (fun h => Json.noConfusion h)
  | .arr _, .obj _ => isFalse (fun h => Json.noConfusion h)
  | .obj _, .null => isFalse (fun h => Json.noConfusion h)
  | .obj _, .bool _ => isFalse (fun h => Json.noConfusion h)
  | .obj _, .num _ => isFalse (fun h => Json.noConfusion h)
  | .obj _, .str _ => isFalse (fun h => Json.noConfusion h)
  | .obj _, .arr _ => isFalse (fun h => Json.noConfusion h)

def Json.deqList : (a b : List Json) → Decidable (a = b)
  | [], [] => isTrue rfl
  | [], _ :: _ => isFalse (fun h => List.noConfusion h)
  | _ :: _, [] => isFalse (fun h => List.noConfusion h)
  | x :: xs, y :: ys =>
    match Json.deq x y with
    | isTrue h1 =>
      match Json.deqList xs ys with
      | isTrue h2 => isTrue (h1 ▸ h2 ▸ rfl)
      | isFalse h2 => isFalse (fun he => h2 (List.cons.inj he).2)
    | isFalse h1 => isFalse (fun he => h1 (List.cons.inj he).1)

def Json.deqObj : (a b : JObj) → Decidable (a = b)
  | [], [] => isTrue rfl
  | [], _ :: _ => isFalse (fun h => List.noConfusion h)
  | _ :: _, [] => isFalse (fun h => List.noConfusion h)
  | (k1, v1) :: xs, (k2, v2) :: ys =>
    match decEq k1 k2 with
    | isTrue hk =>
      match Json.deq v1 v2 with
      | isTrue hv =>
        match Json.deqObj xs ys with
        | isTrue h2 => isTrue (hk ▸ hv ▸ h2 ▸ rfl)
        | isFalse h2 => isFalse (fun he => h2 (List.cons.inj he).2)
      | isFalse hv => isFalse (fun he => hv (congrArg Prod.snd (List.cons.inj he).1))
    | isFalse hk => isFalse (fun he => hk (congrArg Prod.fst (List.cons.inj he).1))
end

instance : DecidableEq Json := Json.deq

/-! ### Dict accessors (Python `dict.get` etc.) -/

/-- Python `o.get(k, d)` on a dict. -/
def jGet (o : JObj) (k : String) (d : Json) : Json := (o.lookup k).getD d

/-- Python `o.get(k, d)` where the call site uses the result as a string
(`d` a string default).  A present non-string value would make the Python
call sites crash on the subsequent slice/compare, so such documents are
outside the modelled domain and fall back to `d` here. -/
def jGetStr (o : JObj) (k : String) (d : String) : String :=
  match o.lookup k with
  | some (.str s) => s
  | _ => d

/-- Python `o.get(k, d)` where the call site uses the result as an int. -/
def jGetNum (o : JObj) (k : String) (d : Int) : Int :=
  match o.lookup k with
  | some (.num n) => n
  | _ => d

/-- Python dict assignment `d[k] = v`: replaces in place if the key exists,
otherwise appends (insertion order preserved, as for Python ≥3.7 dicts). -/
def dictSet {β : Type} : List (String × β) → String → β → List (String × β)
  | [], k, v => [(k, v)]
  | (k', v') :: rest, k, v =>
    if k' == k then (k, v) :: rest else (k', v') :: dictSet rest k v

/-- Dict assignment on a `Json`-valued dict. -/
def jSet (o : JObj) (k : String) (v : Json) : JObj := dictSet o k v

/-- Python `o.get(k, d)` on a `Json` that the call site assumes is a dict
(`.get` on a non-dict raises in Python; such documents are outside the
modelled domain and yield `d`). -/
def jsGet (j : Json) (k : String) (d : Json) : Json :=
  match j with
  | .obj fs => jGet fs k d
  | _ => d

/-- String-valued variant of `jsGet`. -/
def jsGetStr (j : Json) (k : String) (d : String) : String :=
  match j with
  | .obj fs => jGetStr fs k d
  | _ => d

/-- Python `'k' in j` for a dict-valued `Json`. -/
def jsHas (j : Json) (k : String) : Bool :=
  match j with
  | .obj fs => (fs.lookup k).isSome
  | _ => false

/-- Python truthiness of a json value (`if x:`). -/
def jTruthy : Json → Bool
  | .null => false
  | .bool b => b
  | .num n => n != 0
  | .str s => !s.data.isEmpty
  | .arr xs => !xs.isEmpty
  | .obj fs => !fs.isEmpty

/-! ### Serialization: `json.dumps(value, default=str)` with the default
separators `(', ', ': ')` and `ensure_ascii=True`, exactly as used by the
size check in `prune_index` (src/bin/index-session.py:331). -/

/-- Lowercase hex digit. -/
def hexDigit (n : Nat) : Char :=
  if n < 10 then Char.ofNat (48 + n) else Char.ofNat (87 + n)

/-- Four-digit lowercase `\uXXXX` payload for a code unit. -/
def hex4 (n : Nat) : List Char :=
  [hexDigit (n / 4096 % 16), hexDigit (n / 256 % 16), hexDigit (n / 16 % 16), hexDigit (n % 16)]

/-- JSON string escaping of one char as `json.dumps` does with
`ensure_ascii=True`: `"` and `\` are backslash-escaped, the usual control
shorthands are used, all other control chars and all non-ASCII chars become
`\uXXXX` (surrogate pairs beyond the BMP). -/
def escChar (c : Char) : List Char :=
  if c = '"' then ['\\', '"']
  else if c = '\\' then ['\\', '\\']
  else if c = '\n' then ['\\', 'n']
  else if c = '\t' then ['\\', 't']
  else if c = '\r' then ['\\', 'r']
  else if c.toNat == 8 then ['\\', 'b']
  else if c.toNat == 12 then ['\\', 'f']
  else if c.toNat < 32 then '\\' :: 'u' :: hex4 c.toNat
  else if c.toNat ≤ 126 then [c]
  else if c.toNat ≤ 65535 then '\\' :: 'u' :: hex4 c.toNat
  else
    let v := c.toNat - 65536
    ('\\' :: 'u' :: hex4 (55296 + v / 1024)) ++ ('\\' :: 'u' :: hex4 (56320 + v % 1024))

/-- `json.dumps` of a string (quotes plus escaping). -/
def dumpsStr (s : String) : String :=
  "\"" ++ String.mk (s.data.flatMap escChar) ++ "\""

mutual
/-- `json.dumps(v, default=str)` with no `indent` (separators `', '` and
`': '`), as used by the `prune_index` size check. -/
def Json.dumps : Json → String
  | .null => "null"
  | .bool b => if b then "true" else "false"
  | .num n => toString n
  | .str s => dumpsStr s
  | .arr xs => "[" ++ Json.dumpsArr xs ++ "]"
  | .obj fs => "\x7b" ++ Json.dumpsObj fs ++ "\x7d"

def Json.dumpsArr : List Json → String
  | [] => ""
  | [x] => Json.dumps x
  | x :: y :: rest => Json.dumps x ++ ", " ++ Json.dumpsArr (y :: rest)

def Json.dumpsObj : JObj → String
  | [] => ""
  | [(k, v)] => dumpsStr k ++ ": " ++ Json.dumps v
  | (k, v) :: y :: rest => dumpsStr k ++ ": " ++ Json.dumps v ++ ", " ++ Json.dumpsObj (y :: rest)
end

/-! ### The index document

The shape written by the code itself (src/bin/index-session.py:247-257 and
src/lib/knowledge.py:48-56): `version`, `project`, `sessions`,
`failure_patterns`, `learnings`, optionally `pending_learnings` (the
index-session default omits the key, the knowledge-library default includes
it), `usage`.  Session summaries and failure entries are open dicts (`JObj`);
learnings and the usage block are carried as opaque `Json` values since no
modelled operation looks inside them beyond the accessors used below. -/

structure Index where
  version : Json
  project : Json
  sessions : List (String × JObj)
  failure_patterns : List (String × List JObj)
  learnings : List Json
  pending_learnings : Option (List Json)
  usage : Json
deriving DecidableEq

/-- Document re-assembled as a `Json` value in the canonical field order for
serialization (`pending_learnings` emitted only when the key is present). -/
def Index.toJson (i : Index) : Json :=
  .obj
    ([("version", i.version), ("project", i.project),
      ("sessions", .obj (i.sessions.map (fun kv => (kv.1, .obj kv.2)))),
      ("failure_patterns",
        .obj (i.failure_patterns.map (fun kv => (kv.1, .arr (kv.2.map Json.obj))))),
      ("learnings", .arr i.learnings)]
     ++ (match i.pending_learnings with
         | none => []
         | some p => [("pending_learnings", .arr p)])
     ++ [("usage", i.usage)])

/-- Python `len(json.dumps(index, default=str))` (src/bin/index-session.py:331):
the character count of the serialized document. -/
def serializedSize (i : Index) : Nat := (Json.dumps i.toJson).length

/-- MAX_SESSIONS_IN_INDEX (src/bin/index-session.py:20). -/
def MAX_SESSIONS_IN_INDEX : Nat := 50

/-- MAX_INDEX_SIZE_KB (src/bin/index-session.py:21). -/
def MAX_INDEX_SIZE_KB : Nat := 60

/-- Fresh default document of src/bin/index-session.py `load_index`
(lines 247-257): note there is no `pending_learnings` key. -/
def defaultIndexIS (project_folder : String) : Index :=
  { version := .num 2
    project := .str project_folder
    sessions := []
    failure_patterns := []
    learnings := []
    pending_learnings := none
    usage := .obj [("skills", .obj []), ("learnings_shown", .obj [])] }

/-- Fresh default document of src/lib/knowledge.py `load_index`
(lines 48-56): includes an empty `pending_learnings` list. -/
def defaultIndexKn (project_folder : String) : Index :=
  { version := .num 2
    project := .str project_folder
    sessions := []
    failure_patterns := []
    learnings := []
    pending_learnings := some []
    usage := .obj [("skills", .obj []), ("learnings_shown", .obj [])] }

/-- State of the file backing a JSON store: absent, present but not valid
JSON, or parsing to a document.  `json.load` success/failure is the model
boundary. -/
inductive FileState where
  | absent
  | corrupt
  | valid (doc : Index)
deriving DecidableEq

/-- src/bin/index-session.py `load_index` (lines 236-257): parse errors and a
missing file both fall through to the fresh default. -/
def loadIndexIS (project_folder : String) : FileState → Index
  | .valid doc => doc
  | .absent => defaultIndexIS project_folder
  | .corrupt => defaultIndexIS project_folder

/-- src/lib/knowledge.py `load_index` (lines 39-56): parse/IO errors and a
missing file both fall through to the fresh default. -/
def loadIndexKn (project_folder : String) : FileState → Index
  | .valid doc => doc
  | .absent => defaultIndexKn project_folder
  | .corrupt => defaultIndexKn project_folder

/-- src/bin/recall-sessions.py `load_index` (lines 68-77): returns None (here
`none`) when the file is absent or unparseable. -/
def loadIndexRS : FileState → Option Index
  | .valid doc => some doc
  | .absent => none
  | .corrupt => none

/-! ### Pruning (src/bin/index-session.py `prune_index`, lines 308-341) -/

/-- Sort key `x[1].get('date', '')` (src/bin/index-session.py:320). -/
def sessDate (kv : String × JObj) : String := jGetStr kv.2 "date" ""

/-- The comparison under which a stable sort reproduces Python
`sorted(..., key=lambda x: x[1].get('date',''), reverse=True)`:
`a` may stay before `b` iff `a`'s date is not smaller. -/
def sessGe (a b : String × JObj) : Prop := strLt (sessDate a) (sessDate b) = false

instance : DecidableRel sessGe := fun _ _ => instDecidableEqBool _ _

/-- Python `sorted(sessions.items(), key=..., reverse=True)`
(src/bin/index-session.py:318-322).  CPython's sort is stable; with
`reverse=True` it orders by descending key, keeping the original order of
equal keys — exactly what a stable insertion sort under `sessGe` produces. -/
def sortSessionsDesc (l : List (String × JObj)) : List (String × JObj) :=
  l.insertionSort sessGe

/-- The second pruning pass (src/bin/index-session.py:330-339): while the
serialized index exceeds the byte target and more than 10 sessions remain,
delete the session that sorts last (oldest date) and re-serialize.  The
recursion consumes the sorted list from the oldest end, so it is passed here
reversed (oldest first). -/
def pruneLoopRev (target : Nat) (idx : Index) : List (String × JObj) → Index
  | [] => idx
  | oldest :: rest =>
    if serializedSize idx > target ∧ (oldest :: rest).length > 10 then
      pruneLoopRev target
        { idx with sessions := idx.sessions.filter (fun kv => kv.1 != oldest.1) } rest
    else idx

/-- src/bin/index-session.py `prune_index` (lines 308-341). -/
def pruneIndex (idx : Index) (max_sessions : Nat) (max_index_size_kb : Nat) : Index :=
  if idx.sessions.isEmpty then idx
  else
    let sorted := sortSessionsDesc idx.sessions
    let step :=
      if sorted.length > max_sessions then
        let keep := sorted.take max_sessions
        ({ idx with sessions := keep }, keep)
      else (idx, sorted)
    pruneLoopRev (max_index_size_kb * 1024) step.1 step.2.reverse

/-- `prune_index(index)` with the default limits. -/
def pruneIndexD (idx : Index) : Index :=
  pruneIndex idx MAX_SESSIONS_IN_INDEX MAX_INDEX_SIZE_KB

/-- src/bin/index-session.py `save_index` (lines 416-426): prunes, then
rewrites the whole file. -/
def saveIndexIS (idx : Index) : FileState := .valid (pruneIndexD idx)

/-- src/lib/knowledge.py `save_index` (lines 59-66): rewrites the whole file,
no pruning. -/
def saveIndexKn (idx : Index) : FileState := .valid idx

/-- src/bin/recall-sessions.py `save_index` (lines 79-83): rewrites the whole
file, no pruning. -/
def saveIndexRS (idx : Index) : FileState := .valid idx

/-! ### Failure-pattern merge with dedup (src/bin/index-session.py main,
lines 485-511) -/

/-- The 50-char command key `f.get('command', '')[:50]` used for dedup. -/
def cmdKey50 (f : JObj) : String := (jGetStr f "command" "").take 50

/-- The recent window `{f.get('command','')[:50] for f in existing[-5:]}`
(src/bin/index-session.py:491).  Python builds a set; only membership is used,
so a list serves. -/
def recentCmds (existing : List JObj) : List String := (takeLast 5 existing).map cmdKey50

/-- The in-place update performed on a matched entry
(src/bin/index-session.py:502-503): `entry['count'] = entry.get('count',1)+1`
then `entry['date'] = session date`. -/
def bumpEntry (date : String) (e : JObj) : JObj :=
  jSet (jSet e "count" (.num (jGetNum e "count" 1 + 1))) "date" (.str date)

/-- Update the first entry of the list whose command key is `p`. -/
def bumpFirst (p date : String) : List JObj → List JObj
  | [] => []
  | e :: es => if cmdKey50 e == p then bumpEntry date e :: es else e :: bumpFirst p date es

/-- The `for entry in reversed(existing): ... break` loop
(src/bin/index-session.py:500-504): update the last entry matching `p`
in place (a no-op when nothing matches, like the loop falling through). -/
def bumpLast (p date : String) (es : List JObj) : List JObj :=
  (bumpFirst p date es.reverse).reverse

/-- The per-failure loop (src/bin/index-session.py:493-508) over one
category: each incoming failure gets `session_id` and `date` fields; if its
command key is in the recent-command set the last matching existing entry is
bumped, otherwise the failure is appended with `count = 1` and its key joins
the set. -/
def mergeFailures (sid date : String) (existing : List JObj) (cmds : List String) :
    List JObj → List JObj
  | [] => existing
  | f :: fs =>
    let f' := jSet (jSet f "session_id" (.str sid)) "date" (.str date)
    let p := cmdKey50 f'
    if cmds.contains p then
      mergeFailures sid date (bumpLast p date existing) cmds fs
    else
      mergeFailures sid date (existing ++ [jSet f' "count" (.num 1)]) (cmds ++ [p]) fs

/-- Association-list assignment for `failure_patterns` (dict update in
place / append when new, as `jSet`). -/
def fpSet (l : List (String × List JObj)) (k : String) (v : List JObj) :
    List (String × List JObj) := dictSet l k v

/-- One iteration of `for pattern, failures in session_data['failure_patterns']
.items()` (src/bin/index-session.py:486-511): ensure the category exists,
merge with dedup against the recent window, keep only the last 15. -/
def mergeOnePattern (sid date : String) (fp : List (String × List JObj))
    (pat : String × List JObj) : List (String × List JObj) :=
  let fp0 := if (fp.lookup pat.1).isSome then fp else fp ++ [(pat.1, [])]
  let existing := (fp0.lookup pat.1).getD []
  let merged := mergeFailures sid date existing (recentCmds existing) pat.2
  fpSet fp0 pat.1 (takeLast 15 merged)

/-- The whole merge of one session's failure patterns into the global index
(src/bin/index-session.py:485-511). -/
def mergeSessionPatterns (sid date : String) (fp : List (String × List JObj))
    (sessFP : List (String × List JObj)) : List (String × List JObj) :=
  sessFP.foldl (mergeOnePattern sid date) fp

/-! ### Dedup compaction (src/bin/recall-sessions.py `cleanup_dedup_failures`,
lines 532-561) -/

/-- Merging a duplicate entry into the retained one
(src/bin/recall-sessions.py:547-548): `count` becomes the sum of the two
counts (each defaulting to 1), `date` the max of the two dates (each
defaulting to `''`). -/
def mergeDup (u e : JObj) : JObj :=
  let u' := jSet u "count" (.num (jGetNum u "count" 1 + jGetNum e "count" 1))
  jSet u' "date" (.str (pyMax (jGetStr u' "date" "") (jGetStr e "date" "")))

/-- The scan of one category's entries (src/bin/recall-sessions.py:543-552).
In Python `seen[cmd_key]` aliases the entry stored in `unique`, so merging
mutates the retained entry in place; here the retained entry (the unique one
with that command key) is updated by mapping over `unique`.  Returns the
deduplicated list and the number of merges. -/
def dedupScan (unique : List JObj) (n : Nat) : List JObj → List JObj × Nat
  | [] => (unique, n)
  | e :: rest =>
    let k := cmdKey50 e
    if (unique.map cmdKey50).contains k then
      dedupScan (unique.map (fun u => if cmdKey50 u == k then mergeDup u e else u)) (n + 1) rest
    else
      dedupScan (unique ++ [e]) n rest

/-- src/bin/recall-sessions.py `cleanup_dedup_failures` (lines 532-561):
every category is deduplicated and capped to its last 15 entries; the second
component counts merges (the index is rewritten to disk only when it is
positive). -/
def cleanupDedupFailures (idx : Index) : Index × Nat :=
  let scanned := idx.failure_patterns.map (fun kv =>
    let r := dedupScan [] 0 kv.2
    ((kv.1, takeLast 15 r.1), r.2))
  ({ idx with failure_patterns := scanned.map (·.1) },
   (scanned.map (·.2)).foldl (· + ·) 0)

/-! ### Learning lifecycle (src/lib/knowledge.py, lines 81-140) -/

/-- `idx.get('pending_learnings', [])`. -/
def pendingOf (idx : Index) : List Json := idx.pending_learnings.getD []

/-- src/lib/knowledge.py `add_pending_learning` (lines 81-95): dedup by title
against both pending and approved; note that the incoming title is read with
`learning.get('title')` (default `None`) while the stored titles are read
with `.get('title', '')` (default `''`).  Returns the new file state and the
function's boolean result. -/
def addPendingLearning (learning : Json) (project_folder : String) (fs : FileState) :
    FileState × Bool :=
  let idx := loadIndexKn project_folder fs
  let idx := if idx.pending_learnings.isSome then idx
             else { idx with pending_learnings := some [] }
  let existing_titles := (pendingOf idx).map (fun l => jsGet l "title" (.str ""))
  let approved_titles := idx.learnings.map (fun l => jsGet l "title" (.str ""))
  let t := jsGet learning "title" .null
  if ¬ existing_titles.contains t ∧ ¬ approved_titles.contains t then
    (saveIndexKn { idx with pending_learnings := some (pendingOf idx ++ [learning]) }, true)
  else (fs, false)

/-- src/lib/knowledge.py `approve_learning` (lines 98-110): pop index `i`
from the pending queue, append it to `learnings`, save; out-of-range returns
`None` and leaves the file untouched. -/
def approveLearning (i : Int) (project_folder : String) (fs : FileState) :
    FileState × Option Json :=
  let idx := loadIndexKn project_folder fs
  let p := pendingOf idx
  if 0 ≤ i ∧ i < (p.length : Int) then
    match p.get? i.toNat with
    | some learning =>
      (saveIndexKn
        { idx with
          pending_learnings := some (p.eraseIdx i.toNat)
          learnings := idx.learnings ++ [learning] },
       some learning)
    | none => (fs, none)  -- unreachable: the guard bounds the lookup
  else (fs, none)

/-- src/lib/knowledge.py `reject_learning` (lines 113-122): pop index `i`
from the pending queue, save; out-of-range returns `None` and leaves the
file untouched. -/
def rejectLearning (i : Int) (project_folder : String) (fs : FileState) :
    FileState × Option Json :=
  let idx := loadIndexKn project_folder fs
  let p := pendingOf idx
  if 0 ≤ i ∧ i < (p.length : Int) then
    match p.get? i.toNat with
    | some learning =>
      (saveIndexKn { idx with pending_learnings := some (p.eraseIdx i.toNat) }, some learning)
    | none => (fs, none)  -- unreachable: the guard bounds the lookup
  else (fs, none)

/-- src/lib/knowledge.py `approve_all_pending` (lines 125-140): move the
whole pending queue to `learnings`; an empty queue returns 0 without
saving. -/
def approveAllPending (project_folder : String) (fs : FileState) : FileState × Nat :=
  let idx := loadIndexKn project_folder fs
  let p := pendingOf idx
  if p.isEmpty then (fs, 0)
  else
    (saveIndexKn
      { idx with learnings := idx.learnings ++ p, pending_learnings := some [] },
     p.length)

/-! ### The global pending-learnings file (src/lib/pending.py) -/

/-- Parsed shape of ~/.claude/pending-learnings.json. -/
structure PendingDoc where
  version : Json
  pending : List Json
deriving DecidableEq

/-- File state for the pending-learnings file. -/
inductive PFile where
  | absent
  | corrupt
  | valid (doc : PendingDoc)
deriving DecidableEq

/-- src/lib/pending.py `load_pending` (lines 16-24). -/
def loadPending : PFile → PendingDoc
  | .valid doc => doc
  | .absent => { version := .num 1, pending := [] }
  | .corrupt => { version := .num 1, pending := [] }

/-- src/lib/pending.py `add_pending` (lines 33-67): dedup by exact `content`;
on a hit the existing id is returned and nothing is written.  The generated
uuid fragment and the `datetime.now()` timestamp are inputs of the model
(`new_id`, `now`). -/
def pendEntry (category title content session_id session_summary project
    suggested_scope source : String) (new_id now : String) : Json :=
  .obj
    [("id", .str new_id), ("timestamp", .str now), ("session_id", .str session_id),
     ("session_summary", .str (session_summary.take 100)), ("project", .str project),
     ("category", .str category), ("title", .str title), ("content", .str content),
     ("suggested_scope", .str suggested_scope), ("source", .str source)]

def addPending (category title content session_id session_summary project
    suggested_scope source : String) (new_id now : String) (fs : PFile) :
    PFile × String :=
  let data := loadPending fs
  match data.pending.find? (fun p => jsGet p "content" .null == .str content) with
  | some existing => (fs, jsGetStr existing "id" "")
  | none =>
    let entry := pendEntry category title content session_id session_summary project
      suggested_scope source new_id now
    (.valid { data with pending := data.pending ++ [entry] }, new_id)

/-! ### Noise cleanup (src/bin/recall-sessions.py `cleanup_noise_sessions`,
lines 418-437) -/

/-- The removal condition
`session.get('message_count', 0) < 3 and session.get('failure_count', 0) == 0`. -/
def noiseCond (s : JObj) : Bool :=
  jGetNum s "message_count" 0 < 3 && jGetNum s "failure_count" 0 == 0

/-- The `for sid in list(sessions_data.keys())` loop: look the session up,
delete it from the dict and unlink its detail file when the condition holds.
`files` is the set of session ids that have a detail file on disk. -/
def cleanupNoiseLoop (sessions : List (String × JObj)) (files removed : List String) :
    List String → (List (String × JObj)) × List String × List String
  | [] => (sessions, files, removed)
  | sid :: rest =>
    match sessions.lookup sid with
    | some s =>
      if noiseCond s then
        cleanupNoiseLoop (sessions.filter (fun kv => kv.1 != sid))
          (files.filter (fun f => f != sid)) (removed ++ [sid]) rest
      else cleanupNoiseLoop sessions files removed rest
    | none => cleanupNoiseLoop sessions files removed rest

/-- src/bin/recall-sessions.py `cleanup_noise_sessions` (lines 418-437):
returns the surviving sessions, the surviving detail files, and the removed
session ids (the index is rewritten only when that list is nonempty, with the
same surviving content either way). -/
def cleanupNoiseSessions (idx : Index) (files : List String) :
    (List (String × JObj)) × List String × List String :=
  cleanupNoiseLoop idx.sessions files [] (idx.sessions.map (·.1))

/-! ### Error categorization (src/bin/index-session.py `categorize_error`,
lines 214-234) -/

/-- The ordered (category, keywords) table of `categorize_error`. -/
def errorPatternTable : List (String × List String) :=
  [("permission_denied", ["permission denied", "access denied", "eacces"]),
   ("not_found", ["not found", "no such file", "enoent", "command not found"]),
   ("syntax_error", ["syntax error", "parse error", "unexpected token"]),
   ("connection_error", ["connection refused", "timeout", "econnrefused", "network"]),
   ("import_error", ["import error", "module not found", "no module named"]),
   ("type_error", ["typeerror", "type error"]),
   ("git_error", ["fatal:", "git"]),
   ("npm_error", ["npm err", "npm warn"]),
   ("python_error", ["traceback", "exception"])]

/-- src/bin/index-session.py `categorize_error`: first matching rule wins,
case-insensitive substring match, `other_error` if none match. -/
def categorizeError (error_msg : String) : String :=
  let el := lowerStr error_msg
  match errorPatternTable.find? (fun pr => pr.2.any (fun kw => strIn kw el)) with
  | some pr => pr.1
  | none => "other_error"

/-! ### Session summarizer (src/bin/index-session.py `parse_session_full`,
lines 70-212)

Events are the parsed JSONL lines (`none` for a line `json.loads` rejects —
such lines are skipped but still advance the line index `i`).  The topic
extraction of lines 103-109 touches no claim and only feeds the `topics`
display field; it is not modelled. -/

/-- Accumulated result of the parse loop (the claim-bearing fields of
`parse_session_full`'s `result` dict). -/
structure ParseResult where
  user_messages : List JObj
  commands : List JObj
  failures : List JObj
  failure_patterns : List (String × List JObj)
  skills_used : List JObj
deriving DecidableEq

/-- The error-indicator substrings of src/bin/index-session.py:154. -/
def errIndicators : List String :=
  ["error:", "failed", "exception", "traceback", "permission denied",
   "not found", "command not found"]

/-- Block 1: extract a user message (src/bin/index-session.py:92-102). -/
def procUserMsg (i : Nat) (obj : Json) (st : ParseResult) : ParseResult :=
  if jsGet obj "type" .null == .str "user" then
    match jsGet obj "message" (.obj []) with
    | .obj msg =>
      match jGet msg "content" (.str "") with
      | .str content =>
        if content ≠ "" ∧ ¬ pyStartsWith "<" content then
          { st with user_messages := st.user_messages ++
              [[("index", .num i), ("content", .str (content.take 200)),
                ("timestamp", jsGet obj "timestamp" (.str ""))]] }
        else st
      | _ => st
    | _ => st
  else st

/-- One `tool_use` block of an assistant turn
(src/bin/index-session.py:117-140). -/
def procToolUse (i : Nat) (obj : Json) (st : ParseResult) (block : Json) : ParseResult :=
  match block with
  | .obj b =>
    if jGet b "type" .null == .str "tool_use" then
      let tool_name := jGet b "name" (.str "")
      if tool_name == .str "Bash" then
        let command := jsGetStr (jGet b "input" (.obj [])) "command" ""
        if command ≠ "" then
          { st with commands := st.commands ++
              [[("index", .num i), ("tool_id", jGet b "id" (.str "")),
                ("command", .str (command.take 150))]] }
        else st
      else if tool_name == .str "Skill" then
        let skill := jsGetStr (jGet b "input" (.obj [])) "skill" ""
        if skill ≠ "" then
          { st with skills_used := st.skills_used ++
              [[("skill", .str skill), ("timestamp", jsGet obj "timestamp" (.str ""))]] }
        else st
      else st
    else st
  | _ => st

/-- Block 2: assistant tool calls (src/bin/index-session.py:112-140). -/
def procAssistant (i : Nat) (obj : Json) (st : ParseResult) : ParseResult :=
  if jsGet obj "type" .null == .str "assistant" then
    match jsGet obj "message" (.obj []) with
    | .obj msg =>
      match jGet msg "content" (.arr []) with
      | .arr blocks => blocks.foldl (procToolUse i obj) st
      | _ => st
    | _ => st
  else st

/-- One `tool_result` block of a user turn
(src/bin/index-session.py:148-175). -/
def procToolResult1 (i : Nat) (st : ParseResult) (block : Json) : ParseResult :=
  match block with
  | .obj b =>
    if jGet b "type" .null == .str "tool_result" then
      let tool_content := jGet b "content" (.str "")
      let is_error := jGet b "is_error" (.bool false)
      let flagged := jTruthy is_error ||
        (match tool_content with
         | .str s => errIndicators.any (fun ind => strIn ind (lowerStr s))
         | _ => false)
      if flagged then
        let tool_id := jGet b "tool_use_id" (.str "")
        match st.commands.find? (fun cmd => jGet cmd "tool_id" .null == tool_id) with
        | some cmd =>
          -- `str(tool_content)` for a non-string result differs from
          -- `json.dumps` in quoting; no claim exercises a non-string result.
          let error_msg :=
            match tool_content with
            | .str s => s.take 200
            | other => (Json.dumps other).take 200
          let command := jGetStr cmd "command" ""
          let st := { st with failures := st.failures ++
              [[("command", .str command), ("error", .str error_msg), ("index", .num i)]] }
          let pattern := categorizeError error_msg
          if pattern ≠ "" then
            let fp0 := if (st.failure_patterns.lookup pattern).isSome then st.failure_patterns
                       else st.failure_patterns ++ [(pattern, [])]
            { st with failure_patterns :=
                (fpSet fp0 pattern
                  (((fp0.lookup pattern).getD []) ++
                   [[("command", .str (command.take 100)),
                     ("error", .str (error_msg.take 200))]])) }
          else st
        | none => st
      else st
    else st
  | _ => st

/-- Block 3: tool results / failures (src/bin/index-session.py:143-175). -/
def procToolResult (i : Nat) (obj : Json) (st : ParseResult) : ParseResult :=
  if jsGet obj "type" .null == .str "user" then
    match jsGet obj "message" (.obj []) with
    | .obj msg =>
      match jGet msg "content" (.arr []) with
      | .arr blocks => blocks.foldl (procToolResult1 i) st
      | _ => st
    | _ => st
  else st

/-- One line of the `for i, line in enumerate(lines)` loop: the three
extraction blocks in source order; an unparseable line is skipped. -/
def procEvent (i : Nat) (st : ParseResult) : Option Json → ParseResult
  | none => st
  | some obj => procToolResult i obj (procAssistant i obj (procUserMsg i obj st))

/-- The enumerate loop of `parse_session_full`. -/
def parseLoop (i : Nat) (st : ParseResult) : List (Option Json) → ParseResult
  | [] => st
  | l :: rest => parseLoop (i + 1) (procEvent i st l) rest

/-- src/bin/index-session.py `parse_session_full` (claim-bearing fields). -/
def parseSessionFull (lines : List (Option Json)) : ParseResult :=
  parseLoop 0 ⟨[], [], [], [], []⟩ lines

/-- TRIVIAL_MESSAGES (src/bin/index-session.py:41). -/
def trivialMessages : List String :=
  ["yes", "no", "ok", "okay", "sure", "thanks", "y", "n", "continue", "go ahead", "do it"]

/-- The summary generation of src/bin/index-session.py:182-207. -/
def smartSummary (r : ParseResult) : String :=
  if r.user_messages.isEmpty then ""
  else
    let contents := r.user_messages.map (fun m => jGetStr m "content" "")
    let meaningful := contents.filter (fun c =>
      ¬ trivialMessages.contains (lowerStr (stripStr c)) ∧
      ¬ pyStartsWith "/" c ∧ (stripStr c).length > 10)
    if ¬ meaningful.isEmpty then
      let primary := (meaningful.headD "").take 150
      let base :=
        if ¬ r.skills_used.isEmpty then
          let tag := (splitStrChar ':' (jGetStr (r.skills_used.headD []) "skill" "")).getLastD ""
          "[" ++ tag ++ "] " ++ primary
        else primary
      if meaningful.length > 1 ∧ base.length < 120 then
        base ++ " | " ++ ((meaningful.get? 1).getD "").take 60
      else base
    else String.intercalate " | " ((contents.take 3).map (fun m => m.take 100))

/-! ### Heuristic extraction (src/bin/extract-knowledge.py)

The regex heuristics are transliterated pattern by pattern into a small
backtracking matcher with Python `re` semantics (leftmost match, greedy
quantifiers, alternatives tried left to right); all quantifiers in the source
patterns apply to single-character classes, which the `Pat` grammar below
captures exactly. -/

/-- One element of a regex pattern: a literal (with a case-insensitivity
flag for `re.IGNORECASE`), a non-capturing alternation of literals, a single
character of a class, or a greedy `*`/`+` over a class. -/
inductive Pat where
  | lit (s : String) (ci : Bool)
  | alts (ss : List String) (ci : Bool)
  | one (f : Char → Bool)
  | star (f : Char → Bool)
  | plus (f : Char → Bool)

/-- Consume a literal from the input (case-insensitively when `ci`). -/
def litMatch (ci : Bool) : List Char → List Char → Option (List Char)
  | [], s => some s
  | _ :: _, [] => none
  | c :: cs, x :: xs =>
    if (if ci then lowerChar c == lowerChar x else c == x) then litMatch ci cs xs else none

/-- Match a pattern sequence at the start of the input, returning the rest of
the input after the (backtracking-first, greedy) match.  Alternatives are
tried left to right and a greedy quantifier consumes its maximal run and then
gives characters back one at a time, both backtracking into the continuation
-- Python `re`'s leftmost/greedy strategy.  Structural recursion on the
pattern list: each quantifier's candidate give-backs are enumerated
explicitly. -/
def matchSeq : List Pat → List Char → Option (List Char)
  | [], s => some s
  | .lit l ci :: ps, s => (litMatch ci l.data s).bind (matchSeq ps)
  | .alts ls ci :: ps, s =>
    ls.findSome? (fun l => (litMatch ci l.data s).bind (matchSeq ps))
  | .one f :: ps, s =>
    match s with
    | [] => none
    | c :: t => if f c then matchSeq ps t else none
  | .star f :: ps, s =>
    let run := s.takeWhile f
    let rest := s.drop run.length
    (List.range (run.length + 1)).findSome? (fun k => matchSeq ps (takeLast k run ++ rest))
  | .plus f :: ps, s =>
    match s with
    | [] => none
    | c :: t =>
      if f c then
        let run := t.takeWhile f
        let rest := t.drop run.length
        (List.range (run.length + 1)).findSome? (fun k => matchSeq ps (takeLast k run ++ rest))
      else none

/-- Scan for matches from each position; the fuel argument (instantiated with
the input length, an upper bound on the number of scan steps) makes the
recursion structural, since the scan continues on the non-structural
remainder after each match. -/
def findAllAux (ps : List Pat) : Nat → List Char → List String
  | 0, _ => []
  | _, [] => []
  | fuel + 1, c :: t =>
    match matchSeq ps (c :: t) with
    | some remaining =>
      if remaining.length < (c :: t).length then
        String.mk ((c :: t).take ((c :: t).length - remaining.length)) ::
          findAllAux ps fuel remaining
      else "" :: findAllAux ps fuel t
    | none => findAllAux ps fuel t

/-- Python `re.findall(pattern, text)` for a group-free pattern: scan left to
right, emit each leftmost match, continue after it (advancing one char after
a zero-length match, which the anchored patterns below never produce). -/
def findAll (ps : List Pat) (s : List Char) : List String := findAllAux ps s.length s

/-! ### The source regexes of src/bin/extract-knowledge.py, transliterated -/

/-- Character class `[a-zA-Z0-9_-]`. -/
def isW (c : Char) : Bool :=
  (97 ≤ c.toNat && c.toNat ≤ 122) || (65 ≤ c.toNat && c.toNat ≤ 90) ||
  (48 ≤ c.toNat && c.toNat ≤ 57) || c == '_' || c == '-'

/-- Character class `[a-zA-Z0-9_.-]`. -/
def isWDot (c : Char) : Bool := isW c || c == '.'

/-- Character class with slash: underscore, slash, dash and alphanumerics (written with a space here to keep the comment well formed: `[a-zA-Z0-9_ / -]`). -/
def isWSlash (c : Char) : Bool := isW c || c == '/'

/-- Regex `.` (any char but newline; `re.DOTALL` is not set). -/
def isNotNl (c : Char) : Bool := c != '\n'

/-- Credential pattern 1 (IGNORECASE):
`~/\.[a-zA-Z0-9_-]*(?:cred|token|key|pass|auth|secret)[a-zA-Z0-9_-]*`. -/
def credPat1 : List Pat :=
  [.lit "~/." true, .star isW,
   .alts ["cred", "token", "key", "pass", "auth", "secret"] true, .star isW]

/-- Credential pattern 2 (IGNORECASE):
`~/\.[a-zA-Z0-9_-]+/[a-zA-Z0-9_.-]*(?:cred|token|key|pass|auth)[a-zA-Z0-9_.-]*`. -/
def credPat2 : List Pat :=
  [.lit "~/." true, .plus isW, .lit "/" true, .star isWDot,
   .alts ["cred", "token", "key", "pass", "auth"] true, .star isWDot]

/-- Credential pattern 3 (IGNORECASE):
`~/.(?:arango|waystar|trillium|bb)[a-zA-Z0-9_-]*` — note the unescaped `.`
matches any char. -/
def credPat3 : List Pat :=
  [.lit "~/" true, .one isNotNl,
   .alts ["arango", "waystar", "trillium", "bb"] true, .star isW]

/-- Tool pattern 1 (case-sensitive):
`~/code/[a-zA-Z0-9_-]+/(?:bin|scripts?|tools?)/[a-zA-Z0-9_.-]+`.  The
optional `s?` is expanded into explicit alternatives in the greedy
backtracking order (`scripts` before `script`, `tools` before `tool`). -/
def toolPat1 : List Pat :=
  [.lit "~/code/" false, .plus isW, .lit "/" false,
   .alts ["bin", "scripts", "script", "tools", "tool"] false, .lit "/" false, .plus isWDot]

/-- Tool pattern 2 (case-sensitive):
`~/code/[a-zA-Z0-9_-]+/<isWSlash>+\.(?:sh|py|js)` (the middle class is `isWSlash`). -/
def toolPat2 : List Pat :=
  [.lit "~/code/" false, .plus isW, .lit "/" false, .plus isWSlash,
   .lit "." false, .alts ["sh", "py", "js"] false]

/-- Env pattern 1 (IGNORECASE): `~/\.[a-zA-Z0-9_-]*env<isWSlash>*` (the trailing class is `isWSlash`). -/
def envPat1 : List Pat :=
  [.lit "~/." true, .star isW, .lit "env" true, .star isWSlash]

/-- Env pattern 2 (IGNORECASE): `~/.kureenv/[a-zA-Z0-9_.-]+` — the unescaped
`.` matches any char. -/
def envPat2 : List Pat :=
  [.lit "~/" true, .one isNotNl, .lit "kureenv/" true, .plus isWDot]

/-! ### Extraction heuristics (src/bin/extract-knowledge.py) -/

/-- Insert into a Python set modelled as a first-occurrence list (CPython's
set iteration order is unspecified; the claims only use emptiness and
membership of the result). -/
def setAdd (l : List String) (x : String) : List String :=
  if l.contains x then l else l ++ [x]

/-- `found.update(matches)`. -/
def setUnion (l : List String) (xs : List String) : List String := xs.foldl setAdd l

/-- src/bin/extract-knowledge.py `extract_credential_paths` (lines 18-31). -/
def extractCredentialPaths (text : String) : List String :=
  setUnion (setUnion (setUnion [] (findAll credPat1 text.data))
    (findAll credPat2 text.data)) (findAll credPat3 text.data)

/-- src/bin/extract-knowledge.py `extract_tool_paths` (lines 34-51): only the
successful commands are scanned (the `text` parameter is unused in the
source too). -/
def extractToolPaths (_text : String) (successful_commands : List String) : List String :=
  let s1 := successful_commands.foldl (fun acc c => setUnion acc (findAll toolPat1 c.data)) []
  successful_commands.foldl (fun acc c => setUnion acc (findAll toolPat2 c.data)) s1

/-- src/bin/extract-knowledge.py `extract_env_files` (lines 54-66). -/
def extractEnvFiles (text : String) : List String :=
  setUnion (setUnion [] (findAll envPat1 text.data)) (findAll envPat2 text.data)

/-- Python `Path(s).name`: the last path component (empty and `.` components
dropped, as pathlib does). -/
def pathName (s : String) : String :=
  (((splitStrChar '/' s).filter (fun p => p ≠ "" ∧ p ≠ ".")).getLastD "")

/-- The slice of session data handed to the extractor
(src/bin/index-session.py:519-525). -/
structure ExtractionData where
  session_id : String
  summary : String
  user_messages : List JObj
  commands : List JObj
  failures : List JObj
deriving DecidableEq

/-- Debug keywords of src/bin/extract-knowledge.py:80-81. -/
def debugKeywords : List String :=
  ["why", "not working", "figured out", "root cause", "the problem",
   "issue was", "fixed by", "solution"]

/-- src/bin/extract-knowledge.py `is_complex_session` (lines 69-90). -/
def isComplexSession (d : ExtractionData) : Bool :=
  d.failures.length ≥ 3 ||
  (let all_text := lowerStr (String.intercalate " "
      (d.user_messages.map (fun m => jGetStr m "content" "")))
   debugKeywords.any (fun kw => strIn kw all_text)) ||
  (d.user_messages.length ≥ 10 && d.commands.length ≥ 15)

/-- src/bin/extract-knowledge.py `extract_from_session` (lines 93-143): the
proposals list (credential paths, then tool paths, then env files) and the
needs-api flag.  Note there is no failure-to-resolution pairing here: the
`failures` list only excludes failed commands from the tool-path scan and
feeds `is_complex_session`. -/
def extractFromSession (d : ExtractionData) : List JObj × Bool :=
  let all_text := d.user_messages.foldl
    (fun acc m => acc ++ jGetStr m "content" "" ++ "\n") ""
  let failed_cmds := d.failures.map (fun f => jGetStr f "command" "")
  let successful_cmds := (d.commands.map (fun c => jGetStr c "command" "")).filter
    (fun c => ¬ failed_cmds.contains c)
  let creds := extractCredentialPaths all_text
  let tools := extractToolPaths all_text successful_cmds
  let envs := extractEnvFiles all_text
  let proposals :=
    creds.map (fun cred =>
      [("category", Json.str "Credentials"),
       ("title", Json.str ("Credential file: " ++ pathName cred)),
       ("content", Json.str cred), ("suggested_scope", Json.str "global")])
    ++ tools.map (fun tool =>
      [("category", Json.str "Tools"),
       ("title", Json.str ("Tool: " ++ pathName tool)),
       ("content", Json.str tool), ("suggested_scope", Json.str "global")])
    ++ envs.map (fun env =>
      [("category", Json.str "Credentials"),
       ("title", Json.str ("Env file: " ++ pathName env)),
       ("content", Json.str env), ("suggested_scope", Json.str "global")])
  (proposals, isComplexSession d)

/-- The extraction payload built by src/bin/index-session.py main
(lines 519-525) from a parsed session. -/
def extractionOf (sid : String) (r : ParseResult) : ExtractionData :=
  { session_id := sid
    summary := smartSummary r
    user_messages := r.user_messages
    commands := r.commands
    failures := r.failures }

/-! ### Concrete inputs used by the theorems below -/

/-- A user-turn event with plain string content. -/
def userEvent (content : String) : Json :=
  .obj [("type", .str "user"), ("message", .obj [("content", .str content)]),
        ("timestamp", .str "t")]

/-- An assistant-turn event holding one Bash `tool_use` block. -/
def bashEvent (id command : String) : Json :=
  .obj [("type", .str "assistant"),
        ("message", .obj [("content", .arr
          [.obj [("type", .str "tool_use"), ("name", .str "Bash"), ("id", .str id),
                 ("input", .obj [("command", .str command)])]])]),
        ("timestamp", .str "t")]

/-- A user-turn event holding one `tool_result` block. -/
def resultEvent (tool_use_id content : String) (is_error : Bool) : Json :=
  .obj [("type", .str "user"),
        ("message", .obj [("content", .arr
          [.obj [("type", .str "tool_result"), ("tool_use_id", .str tool_use_id),
                 ("content", .str content), ("is_error", .bool is_error)]])])]

/-- The spec's example session: three user messages, `rg foo` failing with
"command not found: rg", then `grep foo file.txt` succeeding. -/
def exampleLines : List (Option Json) :=
  [some (userEvent "fix the bug"),
   some (userEvent "ok"),
   some (userEvent "now deploy it"),
   some (bashEvent "t1" "rg foo"),
   some (resultEvent "t1" "command not found: rg" true),
   some (bashEvent "t2" "grep foo file.txt"),
   some (resultEvent "t2" "2 matching lines" false)]

/-- A failure entry as stored in the global index. -/
def fpEntry (command error sid date : String) (count : Int) : JObj :=
  [("command", .str command), ("error", .str error), ("session_id", .str sid),
   ("date", .str date), ("count", .num count)]

/-- Pre-existing `not_found` entries for the C1 counterexample: the entry
with command `rg foo` sits six entries back, outside the recent-5 window. -/
def c1Existing : List JObj :=
  [fpEntry "rg foo" "command not found: rg" "s1" "2024-01-01" 1,
   fpEntry "cmd a" "err" "s2" "2024-01-02" 1,
   fpEntry "cmd b" "err" "s3" "2024-01-03" 1,
   fpEntry "cmd c" "err" "s4" "2024-01-04" 1,
   fpEntry "cmd d" "err" "s5" "2024-01-05" 1,
   fpEntry "cmd e" "err" "s6" "2024-01-06" 1]

/-- The incoming session's failure patterns for the C1 counterexample. -/
def c1SessFP : List (String × List JObj) :=
  [("not_found", [[("command", .str "rg foo"), ("error", .str "command not found: rg")]])]

/-- The merged failure patterns of the C1 counterexample. -/
def c1Merged : List (String × List JObj) :=
  mergeSessionPatterns "s9" "2024-02-02" [("not_found", c1Existing)] c1SessFP

/-- `"s<i>"` / `"d<i>"` key maker for bulk session data. -/
def natKey (p : String) (i : Nat) : String := p ++ toString i

/-- `n` distinct tiny sessions with distinct dates. -/
def mkSessions (n : Nat) : List (String × JObj) :=
  (List.range n).map (fun i => (natKey "s" i, [("date", Json.str (natKey "d" i))]))

/-- An oversized opaque `usage` blob: its serialization alone (72002 chars)
exceeds the 60 KB budget, so the size check can never pass. -/
def bigUsage : Json := .arr (List.replicate 12000 .null)

/-- C2 counterexample: 60 sessions plus a usage blob that keeps the index
over budget no matter how many sessions are evicted. -/
def c2Idx : Index :=
  { version := .num 2
    project := .str "p"
    sessions := mkSessions 60
    failure_patterns := []
    learnings := []
    pending_learnings := none
    usage := bigUsage }

/-- C3 counterexample: a well-formed document with 60 tiny sessions (over the
50-session cap, well under the byte budget). -/
def c3Idx : Index :=
  { version := .num 2
    project := .str "p"
    sessions := mkSessions 60
    failure_patterns := []
    learnings := []
    pending_learnings := none
    usage := .obj [("skills", .obj []), ("learnings_shown", .obj [])] }

/-- Two small sessions for witnesses: `"a"` is recent but low-value (one
message, no failures), `"b"` is older but has failures. -/
def wSess : List (String × JObj) :=
  [("a", [("date", Json.str "2"), ("message_count", Json.num 1),
          ("failure_count", Json.num 0)]),
   ("b", [("date", Json.str "1"), ("message_count", Json.num 5),
          ("failure_count", Json.num 2)])]

/-- A small well-formed index used as witness input. -/
def wIdx : Index :=
  { version := .num 2
    project := .str "p"
    sessions := wSess
    failure_patterns := [("not_found", [fpEntry "x" "err" "s" "d" 1])]
    learnings := []
    pending_learnings := none
    usage := .obj [("skills", .obj []), ("learnings_shown", .obj [])] }

/-- A learning that carries a `title` key (witness input). -/
def wLearning : Json :=
  .obj [("category", .str "Tools"), ("title", .str "Use grep when rg is missing"),
        ("solution", .str "grep foo file.txt")]

/-- A knowledge-index file with one pending learning (witness input). -/
def w8Fs : FileState :=
  .valid { defaultIndexKn "p" with pending_learnings := some [wLearning] }

/-- The index after approving the single pending learning of `w8Fs`. -/
def w8After : Index :=
  { defaultIndexKn "p" with pending_learnings := some [], learnings := [wLearning] }


/-! ## Lemmas -/

set_option maxRecDepth 2000000

theorem clLt_irrefl : ∀ l : List Char, clLt l l = false
  | [] => rfl
  | a :: as => by simp [clLt, clLt_irrefl as]

theorem clLt_trans : ∀ a b c : List Char,
    clLt a b = true → clLt b c = true → clLt a c = true := by
  intro a
  induction a with
  | nil =>
    intro b c hab hbc
    cases b with
    | nil => simp [clLt] at hab
    | cons y ys =>
      cases c with
      | nil => simp [clLt] at hbc
      | cons z zs => simp [clLt]
  | cons x xs ih =>
    intro b c hab hbc
    cases b with
    | nil => simp [clLt] at hab
    | cons y ys =>
      cases c with
      | nil => simp [clLt] at hbc
      | cons z zs =>
        simp only [clLt] at hab hbc ⊢
        by_cases h1 : x.toNat < y.toNat
        · by_cases h2 : y.toNat < z.toNat
          · simp [Nat.lt_trans h1 h2]
          · by_cases h3 : z.toNat < y.toNat
            · simp [h2, h3] at hbc
            · have hxz : x.toNat < z.toNat := by omega
              simp [hxz]
        · by_cases h2 : y.toNat < x.toNat
          · simp [h1, h2] at hab
          · by_cases h3 : y.toNat < z.toNat
            · have hxz : x.toNat < z.toNat := by omega
              simp [hxz]
            · by_cases h4 : z.toNat < y.toNat
              · simp [h3, h4] at hbc
              · simp [h1, h2] at hab
                simp [h3, h4] at hbc
                have hx : ¬ x.toNat < z.toNat := by omega
                have hz : ¬ z.toNat < x.toNat := by omega
                simp [hx, hz, ih ys zs hab hbc]

theorem clLt_connex : ∀ a b : List Char, clLt a b = false → clLt b a = true ∨ a = b := by
  intro a
  induction a with
  | nil =>
    intro b hab
    cases b with
    | nil => exact Or.inr rfl
    | cons y ys => simp [clLt] at hab
  | cons x xs ih =>
    intro b hab
    cases b with
    | nil => exact Or.inl rfl
    | cons y ys =>
      simp only [clLt] at hab ⊢
      by_cases h1 : x.toNat < y.toNat
      · simp [h1] at hab
      · by_cases h2 : y.toNat < x.toNat
        · simp [h2]
        · simp [h1, h2] at hab
          have hn : x.toNat = y.toNat := by omega
          have hxy : x = y := by
            have h5 := congrArg Char.ofNat hn
            rwa [Char.ofNat_toNat, Char.ofNat_toNat] at h5
          cases ih ys hab with
          | inl h => simp [h1, h2, h, hxy]
          | inr h => exact Or.inr (by rw [hxy, h])

theorem clLt_asymm {a b : List Char} (h : clLt a b = true) : clLt b a = false := by
  by_contra hc
  have hba : clLt b a = true := by
    cases hh : clLt b a with
    | true => rfl
    | false => exact absurd hh hc
  have := clLt_trans a b a h hba
  rw [clLt_irrefl] at this
  exact Bool.noConfusion this

theorem sessGe_total (a b : String × JObj) : sessGe a b ∨ sessGe b a := by
  unfold sessGe
  cases h : strLt (sessDate a) (sessDate b) with
  | false => exact Or.inl rfl
  | true => exact Or.inr (clLt_asymm h)

theorem sessGe_trans {a b c : String × JObj} (hab : sessGe a b) (hbc : sessGe b c) :
    sessGe a c := by
  unfold sessGe strLt at *
  by_contra hc
  have hac : clLt (sessDate a).data (sessDate c).data = true := by
    cases hh : clLt (sessDate a).data (sessDate c).data with
    | true => rfl
    | false => exact absurd hh hc
  cases clLt_connex _ _ hab with
  | inl hba =>
    cases clLt_connex _ _ hbc with
    | inl hcb =>
      have := clLt_trans _ _ _ hac hcb
      have h2 := clLt_trans _ _ _ this hba
      rw [clLt_irrefl] at h2
      exact Bool.noConfusion h2
    | inr hbc2 =>
      rw [hbc2] at hba
      have := clLt_trans _ _ _ hac hba
      rw [clLt_irrefl] at this
      exact Bool.noConfusion this
  | inr hab2 =>
    rw [← hab2] at hbc
    rw [hbc] at hac
    exact Bool.noConfusion hac

theorem pairwise_orderedInsert (x : String × JObj) :
    ∀ l : List (String × JObj), l.Pairwise sessGe →
      (List.orderedInsert sessGe x l).Pairwise sessGe := by
  intro l
  induction l with
  | nil => intro _; simp [List.orderedInsert]
  | cons b t ih =>
    intro h
    rw [List.orderedInsert]
    split
    · rename_i hxb
      refine List.Pairwise.cons ?_ h
      intro y hy
      rcases List.mem_cons.mp hy with rfl | hyt
      · exact hxb
      · exact sessGe_trans hxb (List.rel_of_pairwise_cons h hyt)
    · rename_i hxb
      have hbx : sessGe b x := (sessGe_total x b).resolve_left hxb
      refine List.Pairwise.cons ?_ (ih (List.Pairwise.of_cons h))
      intro y hy
      rcases (List.mem_orderedInsert sessGe).mp hy with rfl | hyt
      · exact hbx
      · exact List.rel_of_pairwise_cons h hyt

theorem pairwise_sortSessionsDesc (l : List (String × JObj)) :
    (sortSessionsDesc l).Pairwise sessGe := by
  unfold sortSessionsDesc
  induction l with
  | nil => simp [List.insertionSort]
  | cons a t ih => exact pairwise_orderedInsert a _ ih

theorem sortSessionsDesc_perm (l : List (String × JObj)) : (sortSessionsDesc l).Perm l :=
  List.perm_insertionSort sessGe l

theorem dictSet_lookup_self {β : Type} (l : List (String × β)) (k : String) (v : β) :
    (dictSet l k v).lookup k = some v := by
  induction l with
  | nil => simp [dictSet, List.lookup]
  | cons hd tl ih =>
    obtain ⟨k0, v0⟩ := hd
    by_cases h : k0 = k
    · subst h
      simp [dictSet, List.lookup]
    · have hb1 : (k0 == k) = false := by simp [h]
      have hb2 : (k == k0) = false := by simp [Ne.symm h]
      simp [dictSet, hb1, List.lookup, hb2, ih]

theorem dictSet_lookup_ne {β : Type} (l : List (String × β)) (k k' : String) (v : β)
    (h : k' ≠ k) : (dictSet l k v).lookup k' = l.lookup k' := by
  have hb : (k' == k) = false := by simp [h]
  induction l with
  | nil => simp [dictSet, List.lookup, hb]
  | cons hd tl ih =>
    obtain ⟨k0, v0⟩ := hd
    by_cases h0 : k0 = k
    · subst h0
      simp [dictSet, List.lookup, hb]
    · have hb0 : (k0 == k) = false := by simp [h0]
      by_cases h1 : k' = k0
      · subst h1
        simp [dictSet, hb0, List.lookup]
      · have hb1 : (k' == k0) = false := by simp [h1]
        simp [dictSet, hb0, List.lookup, hb1, ih]

theorem dictSet_mem {β : Type} (l : List (String × β)) (k : String) (v : β) :
    ∀ x ∈ dictSet l k v, x ∈ l ∨ x = (k, v) := by
  induction l with
  | nil => intro x hx; simp [dictSet] at hx; exact Or.inr hx
  | cons hd tl ih =>
    intro x hx
    obtain ⟨k0, v0⟩ := hd
    simp only [dictSet] at hx
    split at hx
    · rcases List.mem_cons.mp hx with rfl | h2
      · exact Or.inr rfl
      · exact Or.inl (List.mem_cons_of_mem _ h2)
    · rcases List.mem_cons.mp hx with rfl | h2
      · exact Or.inl (List.mem_cons_self _ _)
      · rcases ih x h2 with h3 | h3
        · exact Or.inl (List.mem_cons_of_mem _ h3)
        · exact Or.inr h3

theorem takeLast_length_le {α : Type} (n : Nat) (l : List α) : (takeLast n l).length ≤ n := by
  simp only [takeLast, List.length_drop]
  omega

theorem takeLast_suffix {α : Type} (n : Nat) (l : List α) : takeLast n l <:+ l :=
  List.drop_suffix _ _

theorem takeLast_sublist {α : Type} (n : Nat) (l : List α) : (takeLast n l).Sublist l :=
  (takeLast_suffix n l).sublist


theorem jGetStr_jSet_ne (o : JObj) (k k' : String) (v : Json) (d : String) (h : k' ≠ k) :
    jGetStr (jSet o k v) k' d = jGetStr o k' d := by
  simp [jGetStr, jSet, dictSet_lookup_ne _ _ _ _ h]

theorem jGetNum_jSet_ne (o : JObj) (k k' : String) (v : Json) (d : Int) (h : k' ≠ k) :
    jGetNum (jSet o k v) k' d = jGetNum o k' d := by
  simp [jGetNum, jSet, dictSet_lookup_ne _ _ _ _ h]

theorem jGetStr_jSet_self (o : JObj) (k : String) (x d : String) :
    jGetStr (jSet o k (.str x)) k d = x := by
  simp [jGetStr, jSet, dictSet_lookup_self]

theorem jGetNum_jSet_self (o : JObj) (k : String) (n : Int) (d : Int) :
    jGetNum (jSet o k (.num n)) k d = n := by
  simp [jGetNum, jSet, dictSet_lookup_self]

theorem cmdKey50_jSet_ne (e : JObj) (k : String) (v : Json) (h : k ≠ "command") :
    cmdKey50 (jSet e k v) = cmdKey50 e := by
  simp [cmdKey50, jGetStr_jSet_ne _ _ _ _ _ (Ne.symm h)]

theorem cmdKey50_bumpEntry (d : String) (e : JObj) : cmdKey50 (bumpEntry d e) = cmdKey50 e := by
  rw [bumpEntry, cmdKey50_jSet_ne _ "date" _ (by decide), cmdKey50_jSet_ne _ "count" _ (by decide)]

theorem cmdKey50_mergeDup (u e : JObj) : cmdKey50 (mergeDup u e) = cmdKey50 u := by
  simp only [mergeDup]
  rw [cmdKey50_jSet_ne _ "date" _ (by decide), cmdKey50_jSet_ne _ "count" _ (by decide)]

/-- The compaction merge sums the two counts (each defaulting to 1). -/
theorem mergeDup_count (u e : JObj) :
    jGetNum (mergeDup u e) "count" 1 = jGetNum u "count" 1 + jGetNum e "count" 1 := by
  simp only [mergeDup]
  rw [jGetNum_jSet_ne _ "date" "count" _ _ (by decide), jGetNum_jSet_self]

/-- The compaction merge takes the max of the two dates (each defaulting to
the empty string). -/
theorem mergeDup_date (u e : JObj) :
    jGetStr (mergeDup u e) "date" "" = pyMax (jGetStr u "date" "") (jGetStr e "date" "") := by
  simp only [mergeDup]
  rw [jGetStr_jSet_self, jGetStr_jSet_ne _ "count" "date" _ _ (by decide)]

/-- The incremental bump adds exactly 1 to the entry count. -/
theorem bumpEntry_count (d : String) (e : JObj) :
    jGetNum (bumpEntry d e) "count" 1 = jGetNum e "count" 1 + 1 := by
  simp only [bumpEntry]
  rw [jGetNum_jSet_ne _ "date" "count" _ _ (by decide), jGetNum_jSet_self]

/-- The incremental bump overwrites the entry date with the session date. -/
theorem bumpEntry_date (d : String) (e : JObj) : jGetStr (bumpEntry d e) "date" "" = d := by
  simp only [bumpEntry]
  rw [jGetStr_jSet_self]

theorem bumpFirst_length (p d : String) : ∀ l : List JObj, (bumpFirst p d l).length = l.length := by
  intro l
  induction l with
  | nil => simp [bumpFirst]
  | cons e es ih =>
    simp only [bumpFirst]
    split <;> simp [ih]

theorem bumpFirst_keys (p d : String) :
    ∀ l : List JObj, (bumpFirst p d l).map cmdKey50 = l.map cmdKey50 := by
  intro l
  induction l with
  | nil => simp [bumpFirst]
  | cons e es ih =>
    simp only [bumpFirst]
    split <;> simp [ih, cmdKey50_bumpEntry]

theorem bumpLast_length (p d : String) (l : List JObj) : (bumpLast p d l).length = l.length := by
  simp [bumpLast, bumpFirst_length]

theorem bumpLast_keys (p d : String) (l : List JObj) :
    (bumpLast p d l).map cmdKey50 = l.map cmdKey50 := by
  simp only [bumpLast, List.map_reverse, bumpFirst_keys]
  simp

/-- The uncapped merge extends the existing entries in place: the command-key
sequence of the merged list is the existing key sequence followed by the keys
of the newly appended entries (so the per-category cap, a suffix, always
drops the least-recently-appended entries first). -/
theorem mergeFailures_keys (sid d : String) :
    ∀ (fails : List JObj) (existing : List JObj) (cmds : List String),
      ∃ nk, (mergeFailures sid d existing cmds fails).map cmdKey50 =
        existing.map cmdKey50 ++ nk := by
  intro fails
  induction fails with
  | nil => intro existing cmds; exact ⟨[], by simp [mergeFailures]⟩
  | cons f fs ih =>
    intro existing cmds
    simp only [mergeFailures]
    split
    · obtain ⟨nk, hnk⟩ := ih (bumpLast _ d existing) cmds
      exact ⟨nk, by rw [hnk, bumpLast_keys]⟩
    · obtain ⟨nk, hnk⟩ := ih (existing ++ [jSet (jSet (jSet f "session_id" (.str sid))
        "date" (.str d)) "count" (.num 1)]) (cmds ++ [cmdKey50 (jSet (jSet f "session_id"
        (.str sid)) "date" (.str d))])
      refine ⟨cmdKey50 (jSet (jSet (jSet f "session_id" (.str sid)) "date" (.str d))
        "count" (.num 1)) :: nk, ?_⟩
      rw [hnk]
      simp

theorem mergeFailures_length (sid d : String) (fails existing : List JObj)
    (cmds : List String) :
    existing.length ≤ (mergeFailures sid d existing cmds fails).length := by
  obtain ⟨nk, hnk⟩ := mergeFailures_keys sid d fails existing cmds
  have := congrArg List.length hnk
  simp only [List.length_map, List.length_append] at this
  omega

theorem dedupScan_keys_map :
    ∀ (unique : List JObj) (e : JObj),
      (unique.map (fun u => if cmdKey50 u == cmdKey50 e then mergeDup u e else u)).map
        cmdKey50 = unique.map cmdKey50 := by
  intro unique e
  rw [List.map_map]
  refine List.map_congr_left ?_
  intro u _
  by_cases hu : (cmdKey50 u == cmdKey50 e) = true
  · simp [Function.comp, hu, cmdKey50_mergeDup]
  · simp [Function.comp, hu]

theorem dedupScan_keys_nodup :
    ∀ (rest unique : List JObj) (n : Nat), (unique.map cmdKey50).Nodup →
      (((dedupScan unique n rest).1).map cmdKey50).Nodup := by
  intro rest
  induction rest with
  | nil => intro unique n h; simpa [dedupScan] using h
  | cons e es ih =>
    intro unique n h
    simp only [dedupScan]
    by_cases hc : ((unique.map cmdKey50).contains (cmdKey50 e)) = true
    · rw [if_pos hc]
      refine ih _ _ ?_
      rw [dedupScan_keys_map]
      exact h
    · rw [if_neg hc]
      refine ih _ _ ?_
      rw [List.map_append]
      refine List.Nodup.append h (by simp) ?_
      intro a ha hb
      simp only [List.map_cons, List.map_nil, List.mem_singleton] at hb
      rw [hb] at ha
      exact hc (List.elem_eq_true_of_mem ha)


theorem pruneLoopRev_shape (t : Nat) :
    ∀ (l : List (String × JObj)) (idx : Index),
      ∃ s, pruneLoopRev t idx l = { idx with sessions := s } := by
  intro l
  induction l with
  | nil => intro idx; exact ⟨idx.sessions, rfl⟩
  | cons o rest ih =>
    intro idx
    simp only [pruneLoopRev]
    split
    · obtain ⟨s, hs⟩ :=
        ih { idx with sessions := idx.sessions.filter (fun kv => kv.1 != o.1) }
      exact ⟨s, hs⟩
    · exact ⟨idx.sessions, rfl⟩

theorem filter_out_head {o : String × JObj} {rest : List (String × JObj)}
    {sessions : List (String × JObj)} (hperm : sessions.Perm (o :: rest))
    (hnd : ((o :: rest).map Prod.fst).Nodup) :
    (sessions.filter (fun kv => kv.1 != o.1)).Perm rest := by
  have h1 := hperm.filter (fun kv => kv.1 != o.1)
  have ho : (fun kv => kv.1 != o.1) o = false := by simp
  have h2 : (o :: rest).filter (fun kv => kv.1 != o.1) = rest := by
    rw [List.filter_cons_of_neg (by simp)]
    refine List.filter_eq_self.mpr ?_
    intro kv hkv
    simp only [List.map_cons, List.nodup_cons] at hnd
    have : kv.1 ∈ rest.map Prod.fst := List.mem_map_of_mem _ hkv
    have : kv.1 ≠ o.1 := fun he => hnd.1 (he ▸ this)
    simpa using this
  rw [h2] at h1
  exact h1

theorem pruneLoopRev_post (t : Nat) :
    ∀ (l : List (String × JObj)) (idx : Index),
      idx.sessions.Perm l → ((l.map Prod.fst).Nodup) →
      ∃ k, (pruneLoopRev t idx l).sessions.Perm (l.drop k) ∧
        (serializedSize (pruneLoopRev t idx l) ≤ t ∨ (l.drop k).length ≤ 10) := by
  intro l
  induction l with
  | nil =>
    intro idx hperm _
    exact ⟨0, by simpa [pruneLoopRev] using hperm, Or.inr (by simp)⟩
  | cons o rest ih =>
    intro idx hperm hnd
    simp only [pruneLoopRev]
    by_cases hg : serializedSize idx > t ∧ (o :: rest).length > 10
    · rw [if_pos hg]
      have hperm' : (idx.sessions.filter (fun kv => kv.1 != o.1)).Perm rest :=
        filter_out_head hperm hnd
      have hnd' : (rest.map Prod.fst).Nodup := by
        simp only [List.map_cons, List.nodup_cons] at hnd
        exact hnd.2
      obtain ⟨k, h1, h2⟩ :=
        ih { idx with sessions := (idx.sessions.filter (fun kv => kv.1 != o.1)) } hperm' hnd'
      exact ⟨k + 1, by simpa using h1, by simpa using h2⟩
    · rw [if_neg hg]
      refine ⟨0, by simpa using hperm, ?_⟩
      rw [List.drop_zero]
      by_cases hs : serializedSize idx ≤ t
      · exact Or.inl hs
      · exact Or.inr (by omega)

theorem pruneLoopRev_small (t : Nat) (idx : Index) (l : List (String × JObj))
    (h : serializedSize idx ≤ t) : pruneLoopRev t idx l = idx := by
  cases l with
  | nil => rfl
  | cons o rest =>
    simp only [pruneLoopRev]
    rw [if_neg (by omega)]

theorem pruneLoopRev_big (t : Nat) (U : Json)
    (hbig : ∀ j : Index, j.usage = U → serializedSize j > t) :
    ∀ (l : List (String × JObj)) (idx : Index), idx.usage = U →
      idx.sessions.Perm l → ((l.map Prod.fst).Nodup) →
      (pruneLoopRev t idx l).sessions.length = min l.length 10 := by
  intro l
  induction l with
  | nil =>
    intro idx _ hperm _
    simpa [pruneLoopRev] using hperm.length_eq
  | cons o rest ih =>
    intro idx hU hperm hnd
    simp only [pruneLoopRev]
    by_cases hlen : (o :: rest).length > 10
    · rw [if_pos ⟨hbig idx hU, hlen⟩]
      have hperm' : (idx.sessions.filter (fun kv => kv.1 != o.1)).Perm rest :=
        filter_out_head hperm hnd
      have hnd' : (rest.map Prod.fst).Nodup := by
        simp only [List.map_cons, List.nodup_cons] at hnd
        exact hnd.2
      have := ih { idx with sessions := (idx.sessions.filter (fun kv => kv.1 != o.1)) }
        hU hperm' hnd'
      rw [this]
      simp only [List.length_cons] at hlen ⊢
      omega
    · rw [if_neg (by omega)]
      have := hperm.length_eq
      simp only [List.length_cons] at hlen this ⊢
      omega


theorem dumpsObj_append_ge : ∀ (l : JObj) (k : String) (v : Json),
    (Json.dumps v).length ≤ (Json.dumpsObj (l ++ [(k, v)])).length
  | [], k, v => by
    simp [Json.dumpsObj, String.length_append]
  | [(k0, v0)], k, v => by
    have h := String.length_append
    simp [Json.dumpsObj, String.length_append]
    omega
  | (k0, v0) :: (k1, v1) :: l', k, v => by
    have ih := dumpsObj_append_ge ((k1, v1) :: l') k v
    simp only [List.cons_append] at ih ⊢
    simp only [Json.dumpsObj, String.length_append]
    omega

theorem serializedSize_ge_usage (idx : Index) :
    (Json.dumps idx.usage).length ≤ serializedSize idx := by
  unfold serializedSize Index.toJson
  cases hp : idx.pending_learnings with
  | none =>
    have h := dumpsObj_append_ge
      [("version", idx.version), ("project", idx.project),
       ("sessions", .obj (idx.sessions.map (fun kv => (kv.1, Json.obj kv.2)))),
       ("failure_patterns",
         .obj (idx.failure_patterns.map (fun kv => (kv.1, Json.arr (kv.2.map Json.obj))))),
       ("learnings", .arr idx.learnings)] "usage" idx.usage
    simp only [List.cons_append, List.nil_append] at h
    simp only [Json.dumps, String.length_append]
    simp only [List.append_nil, List.nil_append, List.cons_append]
    omega
  | some p =>
    have h := dumpsObj_append_ge
      [("version", idx.version), ("project", idx.project),
       ("sessions", .obj (idx.sessions.map (fun kv => (kv.1, Json.obj kv.2)))),
       ("failure_patterns",
         .obj (idx.failure_patterns.map (fun kv => (kv.1, Json.arr (kv.2.map Json.obj))))),
       ("learnings", .arr idx.learnings), ("pending_learnings", .arr p)] "usage" idx.usage
    simp only [List.cons_append, List.nil_append] at h
    simp only [Json.dumps, String.length_append]
    simp only [List.append_nil, List.nil_append, List.cons_append]
    omega

theorem dumpsArr_repl : ∀ n : Nat,
    (Json.dumpsArr (List.replicate (n + 1) Json.null)).length = 4 + 6 * n
  | 0 => rfl
  | n + 1 => by
    have ih := dumpsArr_repl n
    rw [List.replicate_succ, List.replicate_succ]
    simp only [Json.dumpsArr, Json.dumps]
    simp only [String.length_append]
    rw [← List.replicate_succ, ih]
    have h4 : ("null" : String).length = 4 := rfl
    have h2 : (", " : String).length = 2 := rfl
    rw [h4, h2]
    omega

theorem dumps_bigUsage_length : (Json.dumps bigUsage).length = 72000 := by
  show (Json.dumps (.arr (List.replicate 12000 Json.null))).length = 72000
  rw [show (12000 : Nat) = 11999 + 1 from rfl]
  simp only [Json.dumps, String.length_append]
  rw [dumpsArr_repl 11999]
  rfl

theorem bigUsage_oversize (j : Index) (hj : j.usage = bigUsage) :
    serializedSize j > MAX_INDEX_SIZE_KB * 1024 := by
  have h := serializedSize_ge_usage j
  rw [hj, dumps_bigUsage_length] at h
  unfold MAX_INDEX_SIZE_KB
  omega


theorem lookup_filter_self (sid : String) :
    ∀ l : List (String × JObj), (l.filter (fun kv => kv.1 != sid)).lookup sid = none := by
  intro l
  induction l with
  | nil => rfl
  | cons kv rest ih =>
    by_cases h : kv.1 = sid
    · rw [List.filter_cons_of_neg (by simp [h])]
      exact ih
    · rw [List.filter_cons_of_pos (by simp [h])]
      obtain ⟨k0, v0⟩ := kv
      simp only at h
      have hb : (sid == k0) = false := by simp [Ne.symm h]
      simp [List.lookup, hb, ih]

theorem lookup_filter_ne (sid k : String) (hk : k ≠ sid) :
    ∀ l : List (String × JObj), (l.filter (fun kv => kv.1 != sid)).lookup k = l.lookup k := by
  intro l
  induction l with
  | nil => rfl
  | cons kv rest ih =>
    obtain ⟨k0, v0⟩ := kv
    by_cases h : k0 = sid
    · subst h
      rw [List.filter_cons_of_neg (by simp)]
      have hb : (k == k0) = false := by simp [hk]
      simp [List.lookup, hb, ih]
    · rw [List.filter_cons_of_pos (by simp [h])]
      by_cases h1 : k = k0
      · subst h1
        simp [List.lookup]
      · have hb : (k == k0) = false := by simp [h1]
        simp [List.lookup, hb, ih]

/-- The looked-up-and-noise predicate driving removal. -/
def noiseKey (sessions : List (String × JObj)) (sid : String) : Bool :=
  match sessions.lookup sid with
  | some s => noiseCond s
  | none => false

theorem noiseKey_filter (sid : String) (sessions : List (String × JObj)) (k : String) :
    noiseKey (sessions.filter (fun kv => kv.1 != sid)) k =
      if k = sid then false else noiseKey sessions k := by
  by_cases h : k = sid
  · subst h
    simp [noiseKey, lookup_filter_self]
  · simp [noiseKey, lookup_filter_ne sid k h, h]

theorem mem_unique_of_nodup_keys {sessions : List (String × JObj)}
    (hnd : (sessions.map Prod.fst).Nodup) {sid : String} {s : JObj}
    (hl : sessions.lookup sid = some s) :
    ∀ kv ∈ sessions, kv.1 = sid → kv = (sid, s) := by
  induction sessions with
  | nil => intro kv hkv; simp at hkv
  | cons hd tl ih =>
    obtain ⟨k0, v0⟩ := hd
    intro kv hkv hk
    simp only [List.map_cons, List.nodup_cons] at hnd
    by_cases h0 : sid = k0
    · subst h0
      simp [List.lookup] at hl
      subst hl
      rcases List.mem_cons.mp hkv with rfl | hmem
      · simp [hk]  -- kv = (k0, v0) and kv.1 = sid gives the pair
      · exact absurd (hk ▸ List.mem_map_of_mem Prod.fst hmem) hnd.1
    · have hb : (sid == k0) = false := by simp [h0]
      simp only [List.lookup, hb] at hl
      rcases List.mem_cons.mp hkv with rfl | hmem
      · exact absurd hk.symm (by simpa using h0)
      · exact ih hnd.2 hl kv hmem hk

theorem cleanupNoiseLoop_spec :
    ∀ (keys : List String) (sessions : List (String × JObj)) (files removed : List String),
      (sessions.map Prod.fst).Nodup → keys.Nodup →
      cleanupNoiseLoop sessions files removed keys =
        (sessions.filter (fun kv => !(keys.contains kv.1 && noiseCond kv.2)),
         files.filter (fun f => !(keys.contains f && noiseKey sessions f)),
         removed ++ keys.filter (noiseKey sessions)) := by
  intro keys
  induction keys with
  | nil =>
    intro sessions files removed _ _
    simp [cleanupNoiseLoop]
  | cons sid rest ih =>
    intro sessions files removed hnd hknd
    simp only [List.nodup_cons] at hknd
    have hrest : ∀ k ∈ rest, k ≠ sid := fun k hk he => hknd.1 (he ▸ hk)
    cases hl : sessions.lookup sid with
    | none =>
      simp only [cleanupNoiseLoop, hl]
      have hsid : ∀ kv ∈ sessions, kv.1 ≠ sid := by
        intro kv hkv he
        have h1 := List.lookup_eq_none_iff.mp hl kv hkv
        rw [he] at h1
        simp at h1
      have hnk : noiseKey sessions sid = false := by simp [noiseKey, hl]
      rw [ih sessions files removed hnd hknd.2]
      refine congrArg₂ _ ?_ (congrArg₂ _ ?_ ?_)
      · refine List.filter_congr ?_
        intro kv hkv
        simp [List.contains_cons, hsid kv hkv]
      · refine List.filter_congr ?_
        intro f _
        by_cases hf : f = sid
        · rw [hf]
          simp [List.contains_cons, hnk]
        · simp [List.contains_cons, hf]
      · rw [List.filter_cons_of_neg (by simp [hnk])]
    | some s =>
      simp only [cleanupNoiseLoop, hl]
      have hnk : noiseKey sessions sid = noiseCond s := by simp [noiseKey, hl]
      have huniq := mem_unique_of_nodup_keys hnd hl
      by_cases hn : noiseCond s = true
      · rw [if_pos hn]
        have hndf : ((sessions.filter (fun kv => kv.1 != sid)).map Prod.fst).Nodup :=
          ((List.filter_sublist sessions).map Prod.fst).nodup hnd
        rw [ih _ _ _ hndf hknd.2]
        refine congrArg₂ _ ?_ (congrArg₂ _ ?_ ?_)
        · rw [List.filter_filter]
          refine List.filter_congr ?_
          intro kv hkv
          by_cases hk : kv.1 = sid
          · have hkv2 : kv = (sid, s) := huniq kv hkv hk
            have hb : (kv.1 == sid) = true := by simp [hk]
            rw [hkv2]
            simp [List.contains_cons, hn]
          · simp [List.contains_cons, hk]
        · rw [List.filter_filter]
          refine List.filter_congr ?_
          intro f _
          by_cases hf : f = sid
          · rw [hf]
            simp [List.contains_cons, hnk, hn]
          · simp [List.contains_cons, noiseKey_filter, hf]
        · rw [List.filter_cons_of_pos (by simp [hnk, hn]), List.append_assoc]
          refine congrArg _ ?_
          simp only [List.singleton_append]
          refine congrArg _ ?_
          refine List.filter_congr ?_
          intro k hk
          rw [noiseKey_filter]
          simp [hrest k hk]
      · rw [if_neg hn]
        have hnf : noiseCond s = false := by
          cases hc : noiseCond s with
          | true => exact absurd hc hn
          | false => rfl
        rw [ih sessions files removed hnd hknd.2]
        refine congrArg₂ _ ?_ (congrArg₂ _ ?_ ?_)
        · refine List.filter_congr ?_
          intro kv hkv
          by_cases hk : kv.1 = sid
          · have hkv2 : kv = (sid, s) := huniq kv hkv hk
            rw [hkv2]
            simp [List.contains_cons, hnf]
          · simp [List.contains_cons, hk]
        · refine List.filter_congr ?_
          intro f _
          by_cases hf : f = sid
          · have hc : rest.contains sid = false := by
              cases hc : rest.contains sid with
              | false => rfl
              | true => exact absurd (by simpa using hc) hknd.1
            rw [hf]
            simp [List.contains_cons, hnk, hnf, hc]
          · simp [List.contains_cons, hf]
        · rw [List.filter_cons_of_neg (by simp [hnk, hnf])]


theorem lookup_own_of_nodup :
    ∀ {l : List (String × JObj)}, (l.map Prod.fst).Nodup →
      ∀ {kv : String × JObj}, kv ∈ l → l.lookup kv.1 = some kv.2 := by
  intro l
  induction l with
  | nil => intro _ kv hkv; simp at hkv
  | cons hd tl ih =>
    intro hnd kv hkv
    obtain ⟨k0, v0⟩ := hd
    simp only [List.map_cons, List.nodup_cons] at hnd
    rcases List.mem_cons.mp hkv with rfl | hmem
    · simp [List.lookup]
    · have hne : kv.1 ≠ k0 := by
        intro he
        exact hnd.1 (he ▸ List.mem_map_of_mem Prod.fst hmem)
      have hb : (kv.1 == k0) = false := by simp [hne]
      simp only [List.lookup, hb]
      exact ih hnd.2 hmem

/-! ## Claim theorems -/

/-- C10: the `--noise` cleanup action removes a session from the index iff
its `message_count` is < 3 and its `failure_count` is 0 (each defaulting to
0); the detail file of every removed session is deleted and no other detail
file is touched; every other session entry is retained unchanged, in order.
(`noiseKey` looks a file's session id up in the index, mirroring the deletion
of the detail file of each removed id.) -/
theorem C10_noise_cleanup (idx : Index) (files : List String)
    (h : (idx.sessions.map Prod.fst).Nodup) :
    cleanupNoiseSessions idx files =
      (idx.sessions.filter (fun kv => !noiseCond kv.2),
       files.filter (fun f => !noiseKey idx.sessions f),
       (idx.sessions.filter (fun kv => noiseCond kv.2)).map Prod.fst) := by
  unfold cleanupNoiseSessions
  rw [cleanupNoiseLoop_spec (idx.sessions.map Prod.fst) idx.sessions files [] h h]
  refine congrArg₂ _ ?_ (congrArg₂ _ ?_ ?_)
  · refine List.filter_congr ?_
    intro kv hkv
    have hc : ((idx.sessions.map Prod.fst).contains kv.1) = true :=
      List.elem_eq_true_of_mem (List.mem_map_of_mem Prod.fst hkv)
    simp only [hc, Bool.true_and]
  · refine List.filter_congr ?_
    intro f _
    cases hnk : noiseKey idx.sessions f with
    | false => simp [hnk]
    | true =>
      have hmem : f ∈ idx.sessions.map Prod.fst := by
        unfold noiseKey at hnk
        cases hl : idx.sessions.lookup f with
        | none => rw [hl] at hnk; simp at hnk
        | some v =>
          have := List.lookup_isSome_iff.mp (by rw [hl]; rfl)
          obtain ⟨p, hp, he⟩ := this
          have : f = p.1 := by simpa using he
          rw [this]
          exact List.mem_map_of_mem Prod.fst hp
      have hc : ((idx.sessions.map Prod.fst).contains f) = true :=
        List.elem_eq_true_of_mem hmem
      simp only [hc, hnk, Bool.true_and]
  · rw [List.nil_append, List.filter_map]
    refine congrArg _ ?_
    refine List.filter_congr ?_
    intro kv hkv
    simp only [Function.comp_apply]
    unfold noiseKey
    rw [lookup_own_of_nodup h hkv]

/-- C10 witness: on the small two-session index, the low-value session `"a"`
(1 message, 0 failures) is removed together with its detail file, while
session `"b"` and the unrelated detail file `"z"` survive. -/
theorem C10_noise_cleanup_witness :
    ((wIdx.sessions.map Prod.fst).Nodup) ∧
    cleanupNoiseSessions wIdx ["a", "b", "z"] =
      (wIdx.sessions.filter (fun kv => !noiseCond kv.2),
       (["a", "b", "z"].filter (fun f => !noiseKey wIdx.sessions f)),
       (wIdx.sessions.filter (fun kv => noiseCond kv.2)).map Prod.fst) :=
  ⟨by decide, C10_noise_cleanup wIdx ["a", "b", "z"] (by decide)⟩

/-- C6 counterexample: the query-path loader of src/bin/recall-sessions.py
returns the `None` sentinel — not a fresh default document — when the index
file is unparseable, so the claim that every loader returns a default
document on absent/corrupt files is false. -/
theorem C6_counterexample : loadIndexRS FileState.corrupt = none := rfl

/-- C6 (amended): the indexing-path loader (src/bin/index-session.py) and
the knowledge-library loader (src/lib/knowledge.py) return their fresh
default documents when the file is absent or unparseable, and a parsed
document is returned as-is; the recall-sessions loader instead returns the
`None` sentinel on absent/corrupt files.  In every case the parse failure is
swallowed, never propagated. -/
theorem C6_load_defaults (pf : String) :
    loadIndexIS pf .absent = defaultIndexIS pf ∧
    loadIndexIS pf .corrupt = defaultIndexIS pf ∧
    loadIndexKn pf .absent = defaultIndexKn pf ∧
    loadIndexKn pf .corrupt = defaultIndexKn pf ∧
    loadIndexRS .absent = none ∧
    loadIndexRS .corrupt = none ∧
    (∀ d : Index, loadIndexIS pf (.valid d) = d ∧ loadIndexKn pf (.valid d) = d ∧
      loadIndexRS (.valid d) = some d) :=
  ⟨rfl, rfl, rfl, rfl, rfl, rfl, fun _ => ⟨rfl, rfl, rfl⟩⟩

/-- C9: for any integer index outside `[0, len(pending))`, both
`approve_learning` and `reject_learning` return the `None` sentinel and
leave the persisted index file untouched. -/
theorem C9_out_of_range (i : Int) (pf : String) (fs : FileState)
    (h : ¬ (0 ≤ i ∧ i < ((pendingOf (loadIndexKn pf fs)).length : Int))) :
    approveLearning i pf fs = (fs, none) ∧ rejectLearning i pf fs = (fs, none) := by
  constructor
  · simp only [approveLearning]
    rw [if_neg h]
  · simp only [rejectLearning]
    rw [if_neg h]

/-- C9 witness: index −1 on an absent file (empty pending queue). -/
theorem C9_out_of_range_witness :
    (¬ (0 ≤ (-1 : Int) ∧ (-1 : Int) < ((pendingOf (loadIndexKn "p" .absent)).length : Int))) ∧
    (approveLearning (-1) "p" .absent = (.absent, none) ∧
      rejectLearning (-1) "p" .absent = (.absent, none)) :=
  ⟨by decide, C9_out_of_range (-1) "p" .absent (by decide)⟩


theorem jsGet_default_irrel (j : Json) (k : String) (h : jsHas j k = true) (d1 d2 : Json) :
    jsGet j k d1 = jsGet j k d2 := by
  cases j with
  | obj fs =>
    simp only [jsHas] at h
    simp only [jsGet, jGet]
    cases hl : fs.lookup k with
    | some v => rfl
    | none => rw [hl] at h; simp at h
  | null => simp [jsHas] at h
  | bool b => simp [jsHas] at h
  | num n => simp [jsHas] at h
  | str s2 => simp [jsHas] at h
  | arr xs => simp [jsHas] at h

/-- `add_pending_learning` either appends the learning to the pending queue
and reports success, or returns the state unchanged with `False`. -/
theorem aPL_shape (learning : Json) (pf : String) (fs : FileState) :
    (∃ idx2 rest, addPendingLearning learning pf fs = (.valid idx2, true) ∧
      idx2.pending_learnings = some (rest ++ [learning]) ∧
      idx2.learnings = (loadIndexKn pf fs).learnings) ∨
    addPendingLearning learning pf fs = (fs, false) := by
  simp only [addPendingLearning]
  split <;> split
  · exact .inl ⟨_, _, rfl, rfl, rfl⟩
  · exact .inr rfl
  · exact .inl ⟨_, _, rfl, rfl, rfl⟩
  · exact .inr rfl

/-- A second proposal of the same titled learning is rejected and leaves the
file untouched. -/
theorem aPL_second_noop (learning : Json) (pf : String) (fs : FileState)
    (h : jsHas learning "title" = true) :
    ∀ fs1 b, addPendingLearning learning pf fs = (fs1, b) →
      addPendingLearning learning pf fs1 = (fs1, false) := by
  have hirr := jsGet_default_irrel learning "title" h Json.null (Json.str "")
  intro fs1 b h1
  rcases aPL_shape learning pf fs with ⟨idx2, rest, he, hp, _⟩ | he
  · rw [he] at h1
    injection h1 with h1a h1b
    subst h1a
    simp only [addPendingLearning, loadIndexKn, pendingOf, hp, Option.isSome_some,
      Option.getD_some, if_true]
    rw [if_neg]
    intro hcontra
    apply hcontra.1
    rw [hirr]
    refine List.elem_eq_true_of_mem ?_
    exact List.mem_map_of_mem _ (List.mem_append_right rest (List.mem_singleton_self learning))
  · rw [he] at h1
    injection h1 with h1a h1b
    subst h1a
    exact he

/-- When some stored entry already has the given content, pending.py
`add_pending` leaves the file unchanged. -/
theorem addPending_hit (category title content session_id session_summary project
    suggested_scope source new_id now : String) (fs : PFile)
    (hx : ∃ x ∈ (loadPending fs).pending,
      (jsGet x "content" .null == Json.str content) = true) :
    (addPending category title content session_id session_summary project
      suggested_scope source new_id now fs).1 = fs := by
  obtain ⟨e, he⟩ := Option.isSome_iff_exists.mp
    (by rw [List.find?_isSome]; exact hx)
  simp only [addPending, he]

/-- When no stored entry has the given content, pending.py `add_pending`
appends the fresh entry. -/
theorem addPending_miss (category title content session_id session_summary project
    suggested_scope source new_id now : String) (fs : PFile)
    (hn : (loadPending fs).pending.find?
      (fun p => jsGet p "content" .null == Json.str content) = none) :
    addPending category title content session_id session_summary project
      suggested_scope source new_id now fs =
    (.valid { loadPending fs with pending := (loadPending fs).pending ++
        [pendEntry category title content session_id session_summary project
          suggested_scope source new_id now] }, new_id) := by
  simp only [addPending, hn]

/-- The stored entry's `content` field reads back as the content it was
built from. -/
theorem pendEntry_content (category title content session_id session_summary project
    suggested_scope source new_id now : String) :
    jsGet (pendEntry category title content session_id session_summary project
      suggested_scope source new_id now) "content" Json.null = Json.str content := rfl

/-- A second pending.py `add_pending` with the same content is a no-op on
the file. -/
theorem addPending_second_noop (category title content session_id session_summary project
    suggested_scope source id1 now1 id2 now2 : String) (fs : PFile) :
    (addPending category title content session_id session_summary project
      suggested_scope source id2 now2
      ((addPending category title content session_id session_summary project
        suggested_scope source id1 now1 fs).1)).1 =
    (addPending category title content session_id session_summary project
      suggested_scope source id1 now1 fs).1 := by
  cases hf : (loadPending fs).pending.find?
      (fun p => jsGet p "content" .null == Json.str content) with
  | some e =>
    have hpe := List.find?_some hf
    have hx : ∃ x ∈ (loadPending fs).pending,
        (jsGet x "content" .null == Json.str content) = true :=
      ⟨e, List.mem_of_find?_eq_some hf, hpe⟩
    rw [addPending_hit category title content session_id session_summary project
      suggested_scope source id1 now1 fs hx]
    exact addPending_hit category title content session_id session_summary project
      suggested_scope source id2 now2 fs hx
  | none =>
    rw [addPending_miss category title content session_id session_summary project
      suggested_scope source id1 now1 fs hf]
    refine addPending_hit category title content session_id session_summary project
      suggested_scope source id2 now2 _ ?_
    refine ⟨pendEntry category title content session_id session_summary project
      suggested_scope source id1 now1,
      List.mem_append_right _ (List.mem_singleton_self _), ?_⟩
    rw [pendEntry_content]
    simp

/-- C7 counterexample: proposing the same title-less learning (the empty
dict) twice inserts it twice.  `learning.get('title')` is `None` for a
missing key while already-stored titles read back as `''`, so the dedup
check never fires and the pending queue grows on every propose. -/
theorem C7_counterexample :
    (pendingOf (loadIndexKn "p"
      (addPendingLearning (.obj []) "p"
        (addPendingLearning (.obj []) "p" .absent).1).1)).length = 2 := by decide

/-- C7 (amended): proposing a learning twice yields the same stored state as
proposing it once, provided the learning carries a `title` key (the
knowledge-library variant dedups by title against both pending and approved);
the simpler pending.py variant, which dedups by exact `content`, is
unconditionally idempotent. -/
theorem C7_propose_idempotent (learning : Json) (pf : String) (fs : FileState)
    (h : jsHas learning "title" = true) :
    (addPendingLearning learning pf (addPendingLearning learning pf fs).1).1 =
      (addPendingLearning learning pf fs).1 ∧
    (∀ (category title content sid ssum proj scope src id1 now1 id2 now2 : String)
      (pfs : PFile),
      (addPending category title content sid ssum proj scope src id2 now2
        ((addPending category title content sid ssum proj scope src id1 now1 pfs).1)).1 =
      (addPending category title content sid ssum proj scope src id1 now1 pfs).1) := by
  constructor
  · have h2 := aPL_second_noop learning pf fs h (addPendingLearning learning pf fs).1
      (addPendingLearning learning pf fs).2 rfl
    rw [h2]
  · intro category title content sid ssum proj scope src id1 now1 id2 now2 pfs
    exact addPending_second_noop category title content sid ssum proj scope src
      id1 now1 id2 now2 pfs

/-- C7 witness: the titled learning `wLearning` proposed twice onto an
absent file leaves the state of the first propose unchanged. -/
theorem C7_propose_idempotent_witness :
    jsHas wLearning "title" = true ∧
    ((addPendingLearning wLearning "p" (addPendingLearning wLearning "p" .absent).1).1 =
      (addPendingLearning wLearning "p" .absent).1 ∧
    (∀ (category title content sid ssum proj scope src id1 now1 id2 now2 : String)
      (pfs : PFile),
      (addPending category title content sid ssum proj scope src id2 now2
        ((addPending category title content sid ssum proj scope src id1 now1 pfs).1)).1 =
      (addPending category title content sid ssum proj scope src id1 now1 pfs).1)) :=
  ⟨by decide, C7_propose_idempotent wLearning "p" .absent (by decide)⟩


/-- `approve_learning` either pops index `i` from pending onto the approved
list, or returns `none` with the state untouched. -/
theorem approve_shape (i : Int) (pf : String) (fs : FileState) :
    (∃ L idx, approveLearning i pf fs = (.valid idx, some L) ∧
      idx.pending_learnings = some ((pendingOf (loadIndexKn pf fs)).eraseIdx i.toNat) ∧
      idx.learnings = (loadIndexKn pf fs).learnings ++ [L]) ∨
    approveLearning i pf fs = (fs, none) := by
  simp only [approveLearning]
  split
  · split
    · exact .inl ⟨_, _, rfl, rfl, rfl⟩
    · exact .inr rfl
  · exact .inr rfl

/-- `reject_learning` either pops index `i` from pending, or returns `none`
with the state untouched; the approved list is unchanged either way. -/
theorem reject_shape (i : Int) (pf : String) (fs : FileState) :
    (∃ L idx, rejectLearning i pf fs = (.valid idx, some L) ∧
      idx.pending_learnings = some ((pendingOf (loadIndexKn pf fs)).eraseIdx i.toNat) ∧
      idx.learnings = (loadIndexKn pf fs).learnings) ∨
    rejectLearning i pf fs = (fs, none) := by
  simp only [rejectLearning]
  split
  · split
    · exact .inl ⟨_, _, rfl, rfl, rfl⟩
    · exact .inr rfl
  · exact .inr rfl

/-- `approve_all_pending` either does nothing or moves the whole pending
queue to the end of the approved list. -/
theorem approveAll_shape (pf : String) (fs : FileState) :
    (∃ idx, approveAllPending pf fs = (.valid idx, (pendingOf (loadIndexKn pf fs)).length) ∧
      idx.pending_learnings = some [] ∧
      idx.learnings = (loadIndexKn pf fs).learnings ++ pendingOf (loadIndexKn pf fs)) ∨
    approveAllPending pf fs = (fs, 0) := by
  simp only [approveAllPending]
  split
  · exact .inr rfl
  · exact .inl ⟨_, rfl, rfl, rfl⟩

/-- C8: a successful `approve_learning(i)` pops exactly the `i`-th pending
learning and appends it to the approved list; afterwards the approved list —
which now holds the learning — is left untouched by every `reject_learning`
call, and none of the four lifecycle operations ever shrinks the approved
list (a learning is never downgraded from approved back to pending). -/
theorem C8_approved_immutable (i : Int) (pf : String) (fs fs' : FileState) (L : Json)
    (h : approveLearning i pf fs = (fs', some L)) :
    (∃ idx, fs' = .valid idx ∧
      idx.pending_learnings = some ((pendingOf (loadIndexKn pf fs)).eraseIdx i.toNat) ∧
      idx.learnings = (loadIndexKn pf fs).learnings ++ [L]) ∧
    L ∈ (loadIndexKn pf fs').learnings ∧
    (∀ j : Int,
      (loadIndexKn pf (rejectLearning j pf fs').1).learnings =
        (loadIndexKn pf fs').learnings ∧
      L ∈ (loadIndexKn pf (rejectLearning j pf fs').1).learnings) ∧
    (∀ (g : FileState) (l : Json) (j : Int),
      (∃ tl, (loadIndexKn pf (addPendingLearning l pf g).1).learnings =
        (loadIndexKn pf g).learnings ++ tl) ∧
      (∃ tl, (loadIndexKn pf (approveLearning j pf g).1).learnings =
        (loadIndexKn pf g).learnings ++ tl) ∧
      (∃ tl, (loadIndexKn pf (rejectLearning j pf g).1).learnings =
        (loadIndexKn pf g).learnings ++ tl) ∧
      (∃ tl, (loadIndexKn pf (approveAllPending pf g).1).learnings =
        (loadIndexKn pf g).learnings ++ tl)) := by
  rcases approve_shape i pf fs with ⟨L2, idx, he, hp, hl⟩ | he
  case inr =>
    rw [he] at h
    injection h with h1 h2
    cases h2
  rw [he] at h
  injection h with h1 h2
  injection h2 with h2
  subst h1
  rw [h2] at hl
  refine ⟨⟨idx, rfl, hp, hl⟩, ?_, ?_, ?_⟩
  · show L ∈ idx.learnings
    rw [hl]
    exact List.mem_append_right _ (List.mem_singleton_self L)
  · intro j
    rcases reject_shape j pf (.valid idx) with ⟨L3, idx3, he3, _, hl3⟩ | he3
    · rw [he3]
      show idx3.learnings = idx.learnings ∧ L ∈ idx3.learnings
      refine ⟨hl3, ?_⟩
      rw [hl3]
      show L ∈ idx.learnings
      rw [hl]
      exact List.mem_append_right _ (List.mem_singleton_self L)
    · rw [he3]
      refine ⟨rfl, ?_⟩
      show L ∈ idx.learnings
      rw [hl]
      exact List.mem_append_right _ (List.mem_singleton_self L)
  · intro g l j
    refine ⟨?_, ?_, ?_, ?_⟩
    · rcases aPL_shape l pf g with ⟨idx2, rest, he2, _, hl2⟩ | he2
      · refine ⟨[], ?_⟩
        rw [he2]
        show idx2.learnings = _ ++ []
        rw [List.append_nil]
        exact hl2
      · refine ⟨[], ?_⟩
        rw [he2, List.append_nil]
    · rcases approve_shape j pf g with ⟨L4, idx4, he4, _, hl4⟩ | he4
      · refine ⟨[L4], ?_⟩
        rw [he4]
        exact hl4
      · refine ⟨[], ?_⟩
        rw [he4, List.append_nil]
    · rcases reject_shape j pf g with ⟨L4, idx4, he4, _, hl4⟩ | he4
      · refine ⟨[], ?_⟩
        rw [he4]
        show idx4.learnings = _ ++ []
        rw [List.append_nil]
        exact hl4
      · refine ⟨[], ?_⟩
        rw [he4, List.append_nil]
    · rcases approveAll_shape pf g with ⟨idx4, he4, _, hl4⟩ | he4
      · refine ⟨pendingOf (loadIndexKn pf g), ?_⟩
        rw [he4]
        exact hl4
      · refine ⟨[], ?_⟩
        rw [he4, List.append_nil]

/-- C8 witness: approving the single pending learning of `w8Fs` at index 0
satisfies the hypothesis, and the conclusions hold there. -/
theorem C8_approved_immutable_witness :
    approveLearning 0 "p" w8Fs = (.valid w8After, some wLearning) ∧
    ((∃ idx, FileState.valid w8After = .valid idx ∧
      idx.pending_learnings = some ((pendingOf (loadIndexKn "p" w8Fs)).eraseIdx (0 : Int).toNat) ∧
      idx.learnings = (loadIndexKn "p" w8Fs).learnings ++ [wLearning]) ∧
    wLearning ∈ (loadIndexKn "p" (FileState.valid w8After)).learnings ∧
    (∀ j : Int,
      (loadIndexKn "p" (rejectLearning j "p" (FileState.valid w8After)).1).learnings =
        (loadIndexKn "p" (FileState.valid w8After)).learnings ∧
      wLearning ∈ (loadIndexKn "p" (rejectLearning j "p" (FileState.valid w8After)).1).learnings) ∧
    (∀ (g : FileState) (l : Json) (j : Int),
      (∃ tl, (loadIndexKn "p" (addPendingLearning l "p" g).1).learnings =
        (loadIndexKn "p" g).learnings ++ tl) ∧
      (∃ tl, (loadIndexKn "p" (approveLearning j "p" g).1).learnings =
        (loadIndexKn "p" g).learnings ++ tl) ∧
      (∃ tl, (loadIndexKn "p" (rejectLearning j "p" g).1).learnings =
        (loadIndexKn "p" g).learnings ++ tl) ∧
      (∃ tl, (loadIndexKn "p" (approveAllPending "p" g).1).learnings =
        (loadIndexKn "p" g).learnings ++ tl))) :=
  ⟨by decide, C8_approved_immutable 0 "p" w8Fs (.valid w8After) wLearning (by decide)⟩


/-- C5: on the spec's example session the parser does record exactly one
failure, categorized `not_found`, but `extract_from_session` proposes no
learning at all — the extractor only has credential-path, tool-path and
env-file regex heuristics, and no failure-to-resolution pairing exists
anywhere in src/bin/extract-knowledge.py, although src/bin/recall-learn.py's
help text advertises one.  In particular no proposed learning references the
succeeding `grep foo file.txt` command. -/
theorem C5_no_resolution_pairing :
    (parseSessionFull exampleLines).failures.length = 1 ∧
    (parseSessionFull exampleLines).failure_patterns.map Prod.fst = ["not_found"] ∧
    (extractFromSession (extractionOf "s" (parseSessionFull exampleLines))).1 = [] := by
  decide

/-- C3 counterexample: a well-formed document with 60 tiny sessions, well
under the byte budget, loses 10 sessions on a straight read-then-write,
because `save_index` in src/bin/index-session.py prunes before writing. -/
theorem C3_counterexample :
    saveIndexIS (loadIndexIS "p" (FileState.valid c3Idx)) ≠ FileState.valid c3Idx := by
  decide

/-- C1 counterexample: merging a session whose `rg foo` failure matches an
existing entry that sits six entries back — outside the recent-5 window the
incremental merge checks — appends a second row, leaving two separate
`not_found` entries with the same 50-character command prefix. -/
theorem C1_counterexample :
    ((c1Merged.lookup "not_found").getD []).countP
      (fun e => cmdKey50 e == "rg foo") = 2 := by
  decide

/-- C1 (amended): each dedup mechanism is sound only within its own scope.
The compaction pass leaves every category with pairwise-distinct 50-char
command keys, and its merge sums the counts and keeps the later date.  The
incremental per-session merge dedups only against the recent-5 window: a
failure whose key appears there bumps the last matching entry in place
(count + 1, date advanced to the session date) and adds no row, while a
failure whose key exists only outside that window is appended as a duplicate
row with `count = 1`. -/
theorem C1_dedup_scoped (idx : Index) (cat : String) (entries : List JObj)
    (h : (cat, entries) ∈ (cleanupDedupFailures idx).1.failure_patterns) :
    (entries.map cmdKey50).Nodup ∧
    (∀ u e, jGetNum (mergeDup u e) "count" 1 = jGetNum u "count" 1 + jGetNum e "count" 1 ∧
      jGetStr (mergeDup u e) "date" "" = pyMax (jGetStr u "date" "") (jGetStr e "date" "")) ∧
    (∀ d e, jGetNum (bumpEntry d e) "count" 1 = jGetNum e "count" 1 + 1 ∧
      jGetStr (bumpEntry d e) "date" "" = d) ∧
    (∀ (sid d : String) (existing : List JObj) (f : JObj),
      ((recentCmds existing).contains (cmdKey50 f) = true →
        mergeFailures sid d existing (recentCmds existing) [f] =
          bumpLast (cmdKey50 f) d existing ∧
        (mergeFailures sid d existing (recentCmds existing) [f]).length =
          existing.length) ∧
      ((recentCmds existing).contains (cmdKey50 f) = false →
        mergeFailures sid d existing (recentCmds existing) [f] =
          existing ++ [jSet (jSet (jSet f "session_id" (.str sid)) "date" (.str d))
            "count" (.num 1)])) := by
  refine ⟨?_, fun u e => ⟨mergeDup_count u e, mergeDup_date u e⟩,
    fun d e => ⟨bumpEntry_count d e, bumpEntry_date d e⟩, ?_⟩
  · have hfp : (cleanupDedupFailures idx).1.failure_patterns =
        idx.failure_patterns.map (fun kv => (kv.1, takeLast 15 (dedupScan [] 0 kv.2).1)) := by
      simp [cleanupDedupFailures, List.map_map, Function.comp]
    rw [hfp] at h
    obtain ⟨kv0, hmem, heq⟩ := List.mem_map.mp h
    have he : entries = takeLast 15 (dedupScan [] 0 kv0.2).1 := by
      have h2 := congrArg Prod.snd heq
      simpa using h2.symm
    rw [he]
    have hnd := dedupScan_keys_nodup kv0.2 [] 0 (by simp)
    exact List.Nodup.sublist ((takeLast_sublist 15 _).map cmdKey50) hnd
  · intro sid d existing f
    have hkey : cmdKey50 (jSet (jSet f "session_id" (.str sid)) "date" (.str d)) =
        cmdKey50 f := by
      rw [cmdKey50_jSet_ne _ "date" _ (by decide), cmdKey50_jSet_ne _ "session_id" _ (by decide)]
    constructor
    · intro hin
      have heq : mergeFailures sid d existing (recentCmds existing) [f] =
          bumpLast (cmdKey50 f) d existing := by
        simp only [mergeFailures, hkey]
        rw [if_pos hin]
      exact ⟨heq, by rw [heq, bumpLast_length]⟩
    · intro hout
      simp only [mergeFailures, hkey]
      rw [if_neg (fun hc => by rw [hout] at hc; exact Bool.noConfusion hc)]

/-- C1 witness: the compaction of `wIdx` yields the `not_found` category with
its single entry, satisfying the membership hypothesis. -/
theorem C1_dedup_scoped_witness :
    ("not_found", [fpEntry "x" "err" "s" "d" 1]) ∈
      (cleanupDedupFailures wIdx).1.failure_patterns ∧
    (([fpEntry "x" "err" "s" "d" 1].map cmdKey50).Nodup ∧
    (∀ u e, jGetNum (mergeDup u e) "count" 1 = jGetNum u "count" 1 + jGetNum e "count" 1 ∧
      jGetStr (mergeDup u e) "date" "" = pyMax (jGetStr u "date" "") (jGetStr e "date" "")) ∧
    (∀ d e, jGetNum (bumpEntry d e) "count" 1 = jGetNum e "count" 1 + 1 ∧
      jGetStr (bumpEntry d e) "date" "" = d) ∧
    (∀ (sid d : String) (existing : List JObj) (f : JObj),
      ((recentCmds existing).contains (cmdKey50 f) = true →
        mergeFailures sid d existing (recentCmds existing) [f] =
          bumpLast (cmdKey50 f) d existing ∧
        (mergeFailures sid d existing (recentCmds existing) [f]).length =
          existing.length) ∧
      ((recentCmds existing).contains (cmdKey50 f) = false →
        mergeFailures sid d existing (recentCmds existing) [f] =
          existing ++ [jSet (jSet (jSet f "session_id" (.str sid)) "date" (.str d))
            "count" (.num 1)]))) :=
  ⟨by decide, C1_dedup_scoped wIdx "not_found" [fpEntry "x" "err" "s" "d" 1] (by decide)⟩


/-- One incremental merge step keeps every category at 15 entries or fewer,
provided they all were within the cap before. -/
theorem mergeOnePattern_bound (sid date : String) (fp : List (String × List JObj))
    (pat : String × List JObj) (hpre : ∀ kv ∈ fp, kv.2.length ≤ 15) :
    ∀ kv ∈ mergeOnePattern sid date fp pat, kv.2.length ≤ 15 := by
  intro kv hkv
  simp only [mergeOnePattern, fpSet] at hkv
  rcases dictSet_mem _ _ _ kv hkv with h1 | h1
  · split at h1
    · exact hpre kv h1
    · rcases List.mem_append.mp h1 with h2 | h2
      · exact hpre kv h2
      · rw [List.mem_singleton.mp h2]
        simp
  · rw [h1]
    exact takeLast_length_le 15 _

/-- The incremental merge of a whole session preserves the cap. -/
theorem mergeSessionPatterns_bound (sid date : String) :
    ∀ (sessFP fp : List (String × List JObj)), (∀ kv ∈ fp, kv.2.length ≤ 15) →
      ∀ kv ∈ mergeSessionPatterns sid date fp sessFP, kv.2.length ≤ 15 := by
  intro sessFP
  induction sessFP with
  | nil => intro fp hpre kv hkv; exact hpre kv hkv
  | cons pat rest ih =>
    intro fp hpre kv hkv
    exact ih _ (mergeOnePattern_bound sid date fp pat hpre) kv hkv

/-- C4: every category holds at most 15 entries after the per-session merge
(assuming the index satisfied the cap before, as every index written by these
tools does) and unconditionally after the dedup-compaction pass; the kept
entries are a contiguous suffix of the in-order merged list, whose key
sequence is the existing keys followed by the newly appended ones — so the
dropped entries are always the least-recently-appended. -/
theorem C4_category_cap (sid date : String) (fp sessFP : List (String × List JObj))
    (hpre : ∀ kv ∈ fp, kv.2.length ≤ 15) :
    (∀ kv ∈ mergeSessionPatterns sid date fp sessFP, kv.2.length ≤ 15) ∧
    (∀ (idx : Index), ∀ kv ∈ (cleanupDedupFailures idx).1.failure_patterns,
      kv.2.length ≤ 15) ∧
    (∀ (existing : List JObj) (cmds : List String) (fails : List JObj),
      takeLast 15 (mergeFailures sid date existing cmds fails) <:+
        mergeFailures sid date existing cmds fails ∧
      ∃ nk, (mergeFailures sid date existing cmds fails).map cmdKey50 =
        existing.map cmdKey50 ++ nk) := by
  refine ⟨mergeSessionPatterns_bound sid date sessFP fp hpre, ?_, ?_⟩
  · intro idx kv hkv
    have hfp : (cleanupDedupFailures idx).1.failure_patterns =
        idx.failure_patterns.map (fun kv => (kv.1, takeLast 15 (dedupScan [] 0 kv.2).1)) := by
      simp [cleanupDedupFailures, List.map_map, Function.comp]
    rw [hfp] at hkv
    obtain ⟨kv0, _, heq⟩ := List.mem_map.mp hkv
    have h2 := congrArg Prod.snd heq
    simp only at h2
    rw [← h2]
    exact takeLast_length_le 15 _
  · intro existing cmds fails
    exact ⟨takeLast_suffix 15 _, mergeFailures_keys sid date fails existing cmds⟩

/-- C4 witness: merging the example session's `not_found` failure into the
capped index `wIdx` keeps every category within the cap. -/
theorem C4_category_cap_witness :
    (∀ kv ∈ wIdx.failure_patterns, kv.2.length ≤ 15) ∧
    ((∀ kv ∈ mergeSessionPatterns "s9" "2024-02-02" wIdx.failure_patterns c1SessFP,
      kv.2.length ≤ 15) ∧
    (∀ (idx : Index), ∀ kv ∈ (cleanupDedupFailures idx).1.failure_patterns,
      kv.2.length ≤ 15) ∧
    (∀ (existing : List JObj) (cmds : List String) (fails : List JObj),
      takeLast 15 (mergeFailures "s9" "2024-02-02" existing cmds fails) <:+
        mergeFailures "s9" "2024-02-02" existing cmds fails ∧
      ∃ nk, (mergeFailures "s9" "2024-02-02" existing cmds fails).map cmdKey50 =
        existing.map cmdKey50 ++ nk)) :=
  ⟨by decide, C4_category_cap "s9" "2024-02-02" wIdx.failure_patterns c1SessFP (by decide)⟩


/-- Running the size loop over a reversed keep-list yields some prefix of the
keep-list, and on exit either the size fits or at most 10 entries remain in
the untraversed part. -/
theorem pruneLoop_wrap (t : Nat) (idx2 : Index) (keep : List (String × JObj))
    (hses : idx2.sessions.Perm keep) (hnd : (keep.map Prod.fst).Nodup) :
    ∃ m, m ≤ keep.length ∧
      (pruneLoopRev t idx2 keep.reverse).sessions.Perm (keep.take m) ∧
      (serializedSize (pruneLoopRev t idx2 keep.reverse) ≤ t ∨
        (keep.take m).length ≤ 10) := by
  have hperm : idx2.sessions.Perm keep.reverse := hses.trans (List.reverse_perm keep).symm
  have hndr : (keep.reverse.map Prod.fst).Nodup := by
    rw [List.map_reverse]
    exact List.nodup_reverse.mpr hnd
  obtain ⟨k, h1, h2⟩ := pruneLoopRev_post t keep.reverse idx2 hperm hndr
  refine ⟨keep.length - k, by omega, ?_, ?_⟩
  · rw [List.drop_reverse] at h1
    exact h1.trans (List.reverse_perm _)
  · rcases h2 with h2 | h2
    · exact Or.inl h2
    · right
      rw [List.length_take]
      rw [List.length_drop, List.length_reverse] at h2
      omega

/-- The post-state of `prune_index` after its take-`m0` step: session count
within the cap, size within budget or at most 10 sessions left, all other
fields untouched, and every evicted session dated no later than every kept
one. -/
theorem pruneCore (idx idx2 : Index) (m0 : Nat)
    (hnd : (idx.sessions.map Prod.fst).Nodup)
    (hses2 : idx2.sessions.Perm ((sortSessionsDesc idx.sessions).take m0))
    (hfp : idx2.failure_patterns = idx.failure_patterns)
    (hlrn : idx2.learnings = idx.learnings)
    (husg : idx2.usage = idx.usage)
    (hkl : ((sortSessionsDesc idx.sessions).take m0).length ≤ MAX_SESSIONS_IN_INDEX) :
    (pruneLoopRev (MAX_INDEX_SIZE_KB * 1024) idx2
        ((sortSessionsDesc idx.sessions).take m0).reverse).sessions.length ≤
      MAX_SESSIONS_IN_INDEX ∧
    (serializedSize (pruneLoopRev (MAX_INDEX_SIZE_KB * 1024) idx2
        ((sortSessionsDesc idx.sessions).take m0).reverse) ≤ MAX_INDEX_SIZE_KB * 1024 ∨
      (pruneLoopRev (MAX_INDEX_SIZE_KB * 1024) idx2
        ((sortSessionsDesc idx.sessions).take m0).reverse).sessions.length ≤ 10) ∧
    (pruneLoopRev (MAX_INDEX_SIZE_KB * 1024) idx2
        ((sortSessionsDesc idx.sessions).take m0).reverse).failure_patterns =
      idx.failure_patterns ∧
    (pruneLoopRev (MAX_INDEX_SIZE_KB * 1024) idx2
        ((sortSessionsDesc idx.sessions).take m0).reverse).learnings = idx.learnings ∧
    (pruneLoopRev (MAX_INDEX_SIZE_KB * 1024) idx2
        ((sortSessionsDesc idx.sessions).take m0).reverse).usage = idx.usage ∧
    (∀ a ∈ idx.sessions,
      a ∉ (pruneLoopRev (MAX_INDEX_SIZE_KB * 1024) idx2
        ((sortSessionsDesc idx.sessions).take m0).reverse).sessions →
      ∀ b ∈ (pruneLoopRev (MAX_INDEX_SIZE_KB * 1024) idx2
        ((sortSessionsDesc idx.sessions).take m0).reverse).sessions, sessGe b a) := by
  have hnds : ((sortSessionsDesc idx.sessions).map Prod.fst).Nodup :=
    ((sortSessionsDesc_perm idx.sessions).map Prod.fst).nodup_iff.mpr hnd
  have hndk : (((sortSessionsDesc idx.sessions).take m0).map Prod.fst).Nodup :=
    List.Nodup.sublist ((List.take_sublist m0 _).map Prod.fst) hnds
  obtain ⟨m, hm, hPerm, hOr⟩ :=
    pruneLoop_wrap (MAX_INDEX_SIZE_KB * 1024) idx2 _ hses2 hndk
  obtain ⟨s, hsEq⟩ := pruneLoopRev_shape (MAX_INDEX_SIZE_KB * 1024)
    ((sortSessionsDesc idx.sessions).take m0).reverse idx2
  have hlenR := hPerm.length_eq
  refine ⟨?_, ?_, ?_, ?_, ?_, ?_⟩
  · rw [hlenR, List.length_take]
    omega
  · rcases hOr with h | h
    · exact Or.inl h
    · right
      rw [hlenR]
      exact h
  · rw [hsEq]
    exact hfp
  · rw [hsEq]
    exact hlrn
  · rw [hsEq]
    exact husg
  · intro a ha hna b hb
    have htk : ((sortSessionsDesc idx.sessions).take m0).take m =
        (sortSessionsDesc idx.sessions).take (min m m0) := by
      rw [List.take_take]
    have hb2 : b ∈ (sortSessionsDesc idx.sessions).take (min m m0) := by
      rw [← htk]
      exact hPerm.mem_iff.mp hb
    have ha2 : a ∈ sortSessionsDesc idx.sessions :=
      (sortSessionsDesc_perm idx.sessions).mem_iff.mpr ha
    have hna2 : a ∉ (sortSessionsDesc idx.sessions).take (min m m0) := by
      intro hc
      rw [← htk] at hc
      exact hna (hPerm.mem_iff.mpr hc)
    have hsplit : a ∈ (sortSessionsDesc idx.sessions).take (min m m0) ++
        (sortSessionsDesc idx.sessions).drop (min m m0) := by
      rw [List.take_append_drop]
      exact ha2
    have haD : a ∈ (sortSessionsDesc idx.sessions).drop (min m m0) := by
      rcases List.mem_append.mp hsplit with h | h
      · exact absurd h hna2
      · exact h
    have hpw := pairwise_sortSessionsDesc idx.sessions
    rw [← List.take_append_drop (min m m0) (sortSessionsDesc idx.sessions)] at hpw
    exact (List.pairwise_append.mp hpw).2.2 b hb2 a haD

/-- C2 counterexample: an index whose opaque `usage` blob alone exceeds the
byte budget starts with 60 sessions and is pruned all the way down to the
10-session floor — not to the 50 most recent as the spec's example demands —
because the size check can never pass. -/
theorem C2_counterexample :
    c2Idx.sessions.length = 60 ∧ (pruneIndexD c2Idx).sessions.length = 10 := by
  have hlen60 : c2Idx.sessions.length = 60 := by decide
  refine ⟨hlen60, ?_⟩
  have hperm : (sortSessionsDesc c2Idx.sessions).Perm c2Idx.sessions :=
    sortSessionsDesc_perm _
  have hlen : (sortSessionsDesc c2Idx.sessions).length = 60 := by
    rw [hperm.length_eq, hlen60]
  have hemp : ¬ c2Idx.sessions.isEmpty = true := by decide
  have hgt : (sortSessionsDesc c2Idx.sessions).length > MAX_SESSIONS_IN_INDEX := by
    rw [hlen]
    decide
  have hred : pruneIndexD c2Idx = pruneLoopRev (MAX_INDEX_SIZE_KB * 1024)
      { c2Idx with sessions := (sortSessionsDesc c2Idx.sessions).take MAX_SESSIONS_IN_INDEX }
      ((sortSessionsDesc c2Idx.sessions).take MAX_SESSIONS_IN_INDEX).reverse := by
    unfold pruneIndexD pruneIndex
    rw [if_neg hemp]
    dsimp only
    rw [if_pos hgt]
  rw [hred]
  have hnds : ((sortSessionsDesc c2Idx.sessions).map Prod.fst).Nodup := by
    refine (hperm.map Prod.fst).nodup_iff.mpr ?_
    decide
  have hndk : (((sortSessionsDesc c2Idx.sessions).take MAX_SESSIONS_IN_INDEX).map
      Prod.fst).Nodup :=
    List.Nodup.sublist ((List.take_sublist _ _).map Prod.fst) hnds
  have hndr : ((((sortSessionsDesc c2Idx.sessions).take
      MAX_SESSIONS_IN_INDEX).reverse).map Prod.fst).Nodup := by
    rw [List.map_reverse]
    exact List.nodup_reverse.mpr hndk
  have hpermk : ({ c2Idx with sessions :=
      (sortSessionsDesc c2Idx.sessions).take MAX_SESSIONS_IN_INDEX } : Index).sessions.Perm
      ((sortSessionsDesc c2Idx.sessions).take MAX_SESSIONS_IN_INDEX).reverse := by
    show ((sortSessionsDesc c2Idx.sessions).take MAX_SESSIONS_IN_INDEX).Perm _
    exact (List.reverse_perm _).symm
  have hbig := pruneLoopRev_big (MAX_INDEX_SIZE_KB * 1024) bigUsage bigUsage_oversize
    ((sortSessionsDesc c2Idx.sessions).take MAX_SESSIONS_IN_INDEX).reverse
    { c2Idx with sessions := (sortSessionsDesc c2Idx.sessions).take MAX_SESSIONS_IN_INDEX }
    rfl hpermk hndr
  rw [hbig, List.length_reverse, List.length_take, hlen]
  decide

/-- C2 (amended): pruning bounds the session count by 50 and either fits the
byte budget or stops at the 10-session floor; the other index fields are
untouched and every evicted session is dated no later than every kept one.
The spec's exact-50 outcome needs the additional premise that the 50-session
document fits the budget — an oversized opaque field otherwise drives the
count to the floor. -/
theorem C2_prune_bounded (idx : Index) (hnd : (idx.sessions.map Prod.fst).Nodup) :
    (pruneIndexD idx).sessions.length ≤ MAX_SESSIONS_IN_INDEX ∧
    (serializedSize (pruneIndexD idx) ≤ MAX_INDEX_SIZE_KB * 1024 ∨
      (pruneIndexD idx).sessions.length ≤ 10) ∧
    (pruneIndexD idx).failure_patterns = idx.failure_patterns ∧
    (pruneIndexD idx).learnings = idx.learnings ∧
    (pruneIndexD idx).usage = idx.usage ∧
    (∀ a ∈ idx.sessions, a ∉ (pruneIndexD idx).sessions →
      ∀ b ∈ (pruneIndexD idx).sessions, sessGe b a) ∧
    (idx.sessions.length > MAX_SESSIONS_IN_INDEX →
      serializedSize { idx with sessions :=
        (sortSessionsDesc idx.sessions).take MAX_SESSIONS_IN_INDEX } ≤
        MAX_INDEX_SIZE_KB * 1024 →
      (pruneIndexD idx).sessions = (sortSessionsDesc idx.sessions).take
        MAX_SESSIONS_IN_INDEX) := by
  by_cases hemp : idx.sessions.isEmpty = true
  · have hpe : pruneIndexD idx = idx := by
      unfold pruneIndexD pruneIndex
      rw [if_pos hemp]
    have h0 : idx.sessions = [] := List.isEmpty_iff.mp hemp
    rw [hpe]
    refine ⟨?_, Or.inr ?_, rfl, rfl, rfl, ?_, ?_⟩
    · rw [h0]
      simp
    · rw [h0]
      simp
    · intro a ha hna
      exact absurd ha hna
    · intro hgt _
      rw [h0] at hgt
      simp at hgt
  · have hperm := sortSessionsDesc_perm idx.sessions
    by_cases hgt : (sortSessionsDesc idx.sessions).length > MAX_SESSIONS_IN_INDEX
    · have hred : pruneIndexD idx = pruneLoopRev (MAX_INDEX_SIZE_KB * 1024)
          { idx with sessions := (sortSessionsDesc idx.sessions).take MAX_SESSIONS_IN_INDEX }
          ((sortSessionsDesc idx.sessions).take MAX_SESSIONS_IN_INDEX).reverse := by
        unfold pruneIndexD pruneIndex
        rw [if_neg hemp]
        dsimp only
        rw [if_pos hgt]
      have hcore := pruneCore idx
        { idx with sessions := (sortSessionsDesc idx.sessions).take MAX_SESSIONS_IN_INDEX }
        MAX_SESSIONS_IN_INDEX hnd (List.Perm.refl _) rfl rfl rfl
        (by rw [List.length_take]; omega)
      rw [hred]
      refine ⟨hcore.1, hcore.2.1, hcore.2.2.1, hcore.2.2.2.1, hcore.2.2.2.2.1,
        hcore.2.2.2.2.2, ?_⟩
      intro _ hsize
      rw [pruneLoopRev_small _ _ _ hsize]
    · have hred : pruneIndexD idx = pruneLoopRev (MAX_INDEX_SIZE_KB * 1024) idx
          ((sortSessionsDesc idx.sessions).take
            (sortSessionsDesc idx.sessions).length).reverse := by
        unfold pruneIndexD pruneIndex
        rw [if_neg hemp]
        dsimp only
        rw [if_neg hgt, List.take_length]
      have hses2 : idx.sessions.Perm ((sortSessionsDesc idx.sessions).take
          (sortSessionsDesc idx.sessions).length) := by
        rw [List.take_length]
        exact hperm.symm
      have hcore := pruneCore idx idx (sortSessionsDesc idx.sessions).length hnd hses2
        rfl rfl rfl (by rw [List.take_length]; omega)
      rw [hred]
      refine ⟨hcore.1, hcore.2.1, hcore.2.2.1, hcore.2.2.2.1, hcore.2.2.2.2.1,
        hcore.2.2.2.2.2, ?_⟩
      intro hgt50 _
      exfalso
      have := hperm.length_eq
      omega

/-- C2 witness: the two-session index `wIdx` has distinct session ids and the
prune bounds hold on it. -/
theorem C2_prune_bounded_witness :
    (wIdx.sessions.map Prod.fst).Nodup ∧
    ((pruneIndexD wIdx).sessions.length ≤ MAX_SESSIONS_IN_INDEX ∧
    (serializedSize (pruneIndexD wIdx) ≤ MAX_INDEX_SIZE_KB * 1024 ∨
      (pruneIndexD wIdx).sessions.length ≤ 10) ∧
    (pruneIndexD wIdx).failure_patterns = wIdx.failure_patterns ∧
    (pruneIndexD wIdx).learnings = wIdx.learnings ∧
    (pruneIndexD wIdx).usage = wIdx.usage ∧
    (∀ a ∈ wIdx.sessions, a ∉ (pruneIndexD wIdx).sessions →
      ∀ b ∈ (pruneIndexD wIdx).sessions, sessGe b a) ∧
    (wIdx.sessions.length > MAX_SESSIONS_IN_INDEX →
      serializedSize { wIdx with sessions :=
        (sortSessionsDesc wIdx.sessions).take MAX_SESSIONS_IN_INDEX } ≤
        MAX_INDEX_SIZE_KB * 1024 →
      (pruneIndexD wIdx).sessions = (sortSessionsDesc wIdx.sessions).take
        MAX_SESSIONS_IN_INDEX)) :=
  ⟨by decide, C2_prune_bounded wIdx (by decide)⟩


/-- The size loop never runs when 10 or fewer entries remain: its guard
requires more than 10. -/
theorem pruneLoopRev_floor (t : Nat) (idx : Index) (l : List (String × JObj))
    (h : l.length ≤ 10) : pruneLoopRev t idx l = idx := by
  cases l with
  | nil => rfl
  | cons o rest =>
    simp only [pruneLoopRev]
    rw [if_neg]
    intro hc
    have h2 := hc.2
    omega

/-- Outside the pruner's fixed-point region — more than 50 sessions, or over
budget with more than 10 sessions — pruning strictly shrinks the session
count (given distinct session ids). -/
theorem prune_shrinks (idx : Index) (hnd : (idx.sessions.map Prod.fst).Nodup)
    (h : ¬ (idx.sessions.length ≤ MAX_SESSIONS_IN_INDEX ∧
      (serializedSize idx ≤ MAX_INDEX_SIZE_KB * 1024 ∨ idx.sessions.length ≤ 10))) :
    (pruneIndexD idx).sessions.length < idx.sessions.length := by
  have hperm := sortSessionsDesc_perm idx.sessions
  by_cases hA : idx.sessions.length ≤ MAX_SESSIONS_IN_INDEX
  · have hBC : ¬ (serializedSize idx ≤ MAX_INDEX_SIZE_KB * 1024 ∨
        idx.sessions.length ≤ 10) := fun hbc => h ⟨hA, hbc⟩
    have hsz : ¬ serializedSize idx ≤ MAX_INDEX_SIZE_KB * 1024 :=
      fun hb => hBC (Or.inl hb)
    have h10 : ¬ idx.sessions.length ≤ 10 := fun hb => hBC (Or.inr hb)
    have hemp : ¬ idx.sessions.isEmpty = true := by
      intro hh
      rw [List.isEmpty_iff.mp hh] at h10
      simp at h10
    have hgt : ¬ (sortSessionsDesc idx.sessions).length > MAX_SESSIONS_IN_INDEX := by
      rw [hperm.length_eq]
      omega
    have hred : pruneIndexD idx = pruneLoopRev (MAX_INDEX_SIZE_KB * 1024) idx
        (sortSessionsDesc idx.sessions).reverse := by
      unfold pruneIndexD pruneIndex
      rw [if_neg hemp]
      dsimp only
      rw [if_neg hgt]
    have hne : (sortSessionsDesc idx.sessions).reverse ≠ [] := by
      refine List.length_pos.mp ?_
      rw [List.length_reverse, hperm.length_eq]
      omega
    obtain ⟨o, rest, hor⟩ := List.exists_cons_of_ne_nil hne
    have hperm0 : idx.sessions.Perm (o :: rest) := by
      rw [← hor]
      exact hperm.symm.trans (List.reverse_perm _).symm
    have hlen2 := hperm0.length_eq
    rw [hred, hor]
    simp only [pruneLoopRev]
    rw [if_pos ⟨by omega, by simp only [List.length_cons] at hlen2 ⊢; omega⟩]
    have hndor : ((o :: rest).map Prod.fst).Nodup := (hperm0.map Prod.fst).nodup_iff.mp hnd
    have hperm1 := filter_out_head hperm0 hndor
    have hndrest : (rest.map Prod.fst).Nodup := by
      simp only [List.map_cons, List.nodup_cons] at hndor
      exact hndor.2
    obtain ⟨k, hk1, _⟩ := pruneLoopRev_post (MAX_INDEX_SIZE_KB * 1024) rest
      { idx with sessions := idx.sessions.filter (fun kv => kv.1 != o.1) } hperm1 hndrest
    have hlen3 := hk1.length_eq
    have hlen4 : (rest.drop k).length ≤ rest.length := by
      rw [List.length_drop]
      omega
    simp only [List.length_cons] at hlen2
    omega
  · have hemp : ¬ idx.sessions.isEmpty = true := by
      intro hh
      rw [List.isEmpty_iff.mp hh] at hA
      simp at hA
    have hgt : (sortSessionsDesc idx.sessions).length > MAX_SESSIONS_IN_INDEX := by
      rw [hperm.length_eq]
      omega
    have hred : pruneIndexD idx = pruneLoopRev (MAX_INDEX_SIZE_KB * 1024)
        { idx with sessions := (sortSessionsDesc idx.sessions).take MAX_SESSIONS_IN_INDEX }
        ((sortSessionsDesc idx.sessions).take MAX_SESSIONS_IN_INDEX).reverse := by
      unfold pruneIndexD pruneIndex
      rw [if_neg hemp]
      dsimp only
      rw [if_pos hgt]
    have hcore := pruneCore idx
      { idx with sessions := (sortSessionsDesc idx.sessions).take MAX_SESSIONS_IN_INDEX }
      MAX_SESSIONS_IN_INDEX hnd (List.Perm.refl _) rfl rfl rfl
      (by rw [List.length_take]; omega)
    rw [hred]
    have hb := hcore.1
    omega

/-- C3 (amended): the knowledge.py and recall-sessions.py load/save pairs
round-trip every well-formed document unchanged.  The index-session.py pair,
whose `save_index` prunes before writing, round-trips a document with
distinct session ids exactly when the document is already a fixed point of
its pruner: at most 50 sessions, and serialized size within the 60 KB budget
or at most 10 sessions (the size loop requires more than 10 sessions to
run, so a small over-budget document is also left untouched). -/
theorem C3_roundtrip (idx : Index) (hnd : (idx.sessions.map Prod.fst).Nodup) :
    saveIndexKn (loadIndexKn "p" (.valid idx)) = .valid idx ∧
    (loadIndexRS (.valid idx)).map saveIndexRS = some (.valid idx) ∧
    (saveIndexIS (loadIndexIS "p" (.valid idx)) = .valid idx ↔
      idx.sessions.length ≤ MAX_SESSIONS_IN_INDEX ∧
      (serializedSize idx ≤ MAX_INDEX_SIZE_KB * 1024 ∨ idx.sessions.length ≤ 10)) := by
  refine ⟨rfl, rfl, ?_, ?_⟩
  · intro hfix
    have h2 : FileState.valid (pruneIndexD idx) = FileState.valid idx := hfix
    have hpe : pruneIndexD idx = idx := FileState.valid.inj h2
    by_contra hcon
    have hs := prune_shrinks idx hnd hcon
    rw [hpe] at hs
    exact lt_irrefl _ hs
  · rintro ⟨h1, h2⟩
    show FileState.valid (pruneIndexD idx) = FileState.valid idx
    have hp : pruneIndexD idx = idx := by
      by_cases hemp : idx.sessions.isEmpty = true
      · unfold pruneIndexD pruneIndex
        rw [if_pos hemp]
      · have hgt : ¬ (sortSessionsDesc idx.sessions).length > MAX_SESSIONS_IN_INDEX := by
          rw [(sortSessionsDesc_perm idx.sessions).length_eq]
          omega
        have hred : pruneIndexD idx = pruneLoopRev (MAX_INDEX_SIZE_KB * 1024) idx
            (sortSessionsDesc idx.sessions).reverse := by
          unfold pruneIndexD pruneIndex
          rw [if_neg hemp]
          dsimp only
          rw [if_neg hgt]
        rw [hred]
        rcases h2 with h2 | h2
        · exact pruneLoopRev_small _ idx _ h2
        · refine pruneLoopRev_floor _ idx _ ?_
          rw [List.length_reverse, (sortSessionsDesc_perm idx.sessions).length_eq]
          exact h2
    rw [hp]

/-- C3 witness: the small index `wIdx` has distinct session ids; it is
within both limits, and accordingly round-trips unchanged through all three
load/save pairs. -/
theorem C3_roundtrip_witness :
    (wIdx.sessions.map Prod.fst).Nodup ∧
    (saveIndexKn (loadIndexKn "p" (.valid wIdx)) = .valid wIdx ∧
      (loadIndexRS (.valid wIdx)).map saveIndexRS = some (.valid wIdx) ∧
      (saveIndexIS (loadIndexIS "p" (.valid wIdx)) = .valid wIdx ↔
        wIdx.sessions.length ≤ MAX_SESSIONS_IN_INDEX ∧
        (serializedSize wIdx ≤ MAX_INDEX_SIZE_KB * 1024 ∨ wIdx.sessions.length ≤ 10))) :=
  ⟨by decide, C3_roundtrip wIdx (by decide)⟩

end Recall
